import Mathlib

/-!
Verification development for the spreadsheet grid state engine
(React/TypeScript sources: useSpreadsheet.ts, cellUtils.ts, Spreadsheet.tsx).

The TypeScript sources are shallowly embedded:
* JavaScript numbers used as indices are modelled as Int (all indices in the
  source are integers); numeric cell values are modelled as rationals.
* The sparse cell-override object is modelled as an insertion-ordered
  association list from string keys to cells, mirroring JavaScript object
  semantics (string keys with a dash are not array indices, so iteration
  order is insertion order; assignment to an existing key updates in place,
  assignment to a fresh key appends).
* Code paths on which JavaScript raises a TypeError (property access on
  undefined) are modelled with Except, returning Except.error.
-/

namespace SpreadsheetVerif

/-! ## Decimal digit strings (the JavaScript rendering of integer indices) -/

/-- Least-significant-first decimal digit characters, peeled off by
repeated division; the fuel argument (instantiated with the number itself,
which always suffices) keeps the recursion structural so that proofs can
evaluate it. -/
def natCharsAux : Nat → Nat → List Char
  | 0, _ => []
  | fuel + 1, n => if n = 0 then [] else Char.ofNat (48 + n % 10) :: natCharsAux fuel (n / 10)

/-- The list of decimal digit characters of a natural number, most
significant first, as produced by JavaScript template interpolation of a
non-negative integer. Zero renders as the single character 0. -/
def natChars (n : Nat) : List Char :=
  if n = 0 then ['0'] else (natCharsAux n n).reverse

/-- Reading a most-significant-first list of decimal digit characters back
into a natural number, as JavaScript Number does on an all-digit string.
The empty list yields 0, matching Number of the empty string. -/
def digitsToNat (l : List Char) : Nat :=
  l.foldl (fun acc ch => 10 * acc + (ch.toNat - 48)) 0

/-- Decimal digit character test (0 through 9). -/
def isDigitCh (ch : Char) : Bool := 48 ≤ ch.toNat && ch.toNat ≤ 57

/-- The JavaScript string rendering of an integer: optional minus sign
followed by the decimal digits of the absolute value. -/
def intChars (i : Int) : List Char :=
  if i < 0 then '-' :: natChars i.natAbs else natChars i.natAbs

/-- Source getCellKey: the template string row-dash-col used as the key of
the sparse cell-override map. -/
def getCellKey (row col : Int) : String :=
  String.mk (intChars row ++ '-' :: intChars col)

/-- String.split on a single separator character, with JavaScript semantics:
the result always has one more segment than there are separators, and empty
segments are kept. -/
def splitOnChar (sep : Char) : List Char → List (List Char)
  | [] => [[]]
  | ch :: rest =>
    let r := splitOnChar sep rest
    if ch = sep then [] :: r
    else
      match r with
      | s :: tail => (ch :: s) :: tail
      | [] => [[ch]]

/-- JavaScript Number applied to one segment of a split cell key. Segments
coming from keys built by getCellKey on integers are all-digit strings
(a sign becomes a separator), on which Number returns the decimal value,
with the empty string reading as 0. A segment holding any other character
would read as NaN, modelled as none. -/
def jsNumber (s : String) : Option Int :=
  if s.toList.all isDigitCh then some (digitsToNat s.toList : Int) else none

/-- Source parseCellKey: split the key on dashes, convert the first two
segments with Number, and package them as a row/col pair. A missing second
segment is undefined in JavaScript; both NaN and undefined are modelled as
none (every comparison against them is false). -/
def parseCellKey (key : String) : Option Int × Option Int :=
  match (splitOnChar '-' key.toList).map (fun seg => jsNumber (String.mk seg)) with
  | r :: c :: _ => (r, c)
  | [r] => (r, none)
  | [] => (none, none)

/-! ## JavaScript string and number helpers -/

/-- The JavaScript whitespace class shared by String.prototype.trim,
parseFloat and the regular-expression class backslash-s: tab, line feed,
vertical tab, form feed, carriage return, space, no-break space, the
Unicode space separators, the two line separators, and the byte order
mark. -/
def isWsCh (ch : Char) : Bool :=
  ch.toNat = 0x9 || ch.toNat = 0xA || ch.toNat = 0xB || ch.toNat = 0xC ||
  ch.toNat = 0xD || ch.toNat = 0x20 || ch.toNat = 0xA0 || ch.toNat = 0x1680 ||
  (0x2000 ≤ ch.toNat && ch.toNat ≤ 0x200A) || ch.toNat = 0x2028 ||
  ch.toNat = 0x2029 || ch.toNat = 0x202F || ch.toNat = 0x205F ||
  ch.toNat = 0x3000 || ch.toNat = 0xFEFF

/-- String.prototype.trim on a character list. -/
def trimChars (l : List Char) : List Char :=
  ((l.dropWhile isWsCh).reverse.dropWhile isWsCh).reverse

/-- String.prototype.trim. -/
def stringTrim (s : String) : String := String.mk (trimChars s.toList)

/-- A JavaScript number as reached in this code base: the exact decimal
value num divided by ten to the exp. Every number the source manipulates
here (dataset integers, parsed decimal input) is of this form; the binary
double representation and its rounding noise are not modelled. The triple
need not be reduced: no operation of the engine compares numbers for
equality, only against zero and against the zero threshold for the
sign. -/
structure Dec where
  num : Int
  exp : Nat
deriving DecidableEq

/-- The sign test q below zero. -/
def Dec.isNeg (v : Dec) : Bool := v.num < 0

/-- The magnitude of a decimal number. -/
def Dec.abs (v : Dec) : Dec := { num := (v.num.natAbs : Int), exp := v.exp }

/-- The magnitude of v scaled by ten to the d and rounded half away from
zero (the rounding of the Intl formatter and toFixed on these
magnitudes): the floor of abs num times ten to the d plus one half, over
ten to the exp. -/
def Dec.scaleRound (v : Dec) (d : Nat) : Nat :=
  (v.num.natAbs * 10 ^ d * 2 + 10 ^ v.exp) / (2 * 10 ^ v.exp)

/-- A JavaScript number as produced by parseFloat: an exact finite decimal
or one of the two infinities; NaN is the none of the surrounding
Option. -/
inductive JsNum where
  | fin (d : Dec)
  | posInf
  | negInf
deriving DecidableEq

/-- The exponent suffix of a decimal literal: an e or E followed by an
optional sign and at least one digit contributes its signed digit value; a
bare or incomplete suffix contributes nothing, as parseFloat stops the
parsed prefix before it. -/
def parseExpPart (l : List Char) : Int :=
  match l with
  | ch :: rest =>
    if ch = 'e' ∨ ch = 'E' then
      match rest with
      | '+' :: r2 =>
        let ds := r2.takeWhile isDigitCh
        if ds.isEmpty then 0 else ((digitsToNat ds : Nat) : Int)
      | '-' :: r2 =>
        let ds := r2.takeWhile isDigitCh
        if ds.isEmpty then 0 else -((digitsToNat ds : Nat) : Int)
      | r2 =>
        let ds := r2.takeWhile isDigitCh
        if ds.isEmpty then 0 else ((digitsToNat ds : Nat) : Int)
    else 0
  | [] => 0

/-- Model of the global parseFloat: skip leading whitespace and read the
longest prefix that is a signed decimal literal - the word Infinity, or
digits with an optional point, fraction digits and exponent suffix -
ignoring everything after that prefix; when no such prefix exists the
result is NaN, modelled as none. A finite value is kept as the exact
decimal it denotes: the rounding of the binary double and the overflow of
finite literals beyond its range are not modelled, as the engine only
formats the parsed value and never compares it. -/
def jsParseFloat (s : String) : Option JsNum :=
  let l := s.toList.dropWhile isWsCh
  let signAndRest : Int × List Char :=
    match l with
    | '-' :: rest => (-1, rest)
    | '+' :: rest => (1, rest)
    | _ => (1, l)
  if signAndRest.2.take 8 = "Infinity".toList then
    some (if signAndRest.1 < 0 then .negInf else .posInf)
  else
    let d1 := signAndRest.2.takeWhile isDigitCh
    let l2 := signAndRest.2.drop d1.length
    let afterPoint : Option (List Char × List Char) :=
      match l2 with
      | '.' :: rest => some (rest.takeWhile isDigitCh, rest.drop (rest.takeWhile isDigitCh).length)
      | _ => none
    let d2 := (afterPoint.map Prod.fst).getD []
    let l3 := (afterPoint.map Prod.snd).getD l2
    if d1.isEmpty && d2.isEmpty then none
    else
      let m : Nat := digitsToNat d1 * 10 ^ d2.length + digitsToNat d2
      let shift : Int := parseExpPart l3 - (d2.length : Int)
      some (.fin (if 0 ≤ shift then
        { num := signAndRest.1 * ((m * 10 ^ shift.toNat : Nat) : Int), exp := 0 }
      else
        { num := signAndRest.1 * (m : Int), exp := (-shift).toNat }))

/-- Comma grouping of a reversed digit list: emit a comma before each digit
that starts a new group of three counted from the right. -/
def group3Rev : List Char → Nat → List Char
  | [], _ => []
  | ch :: rest, k =>
    if k = 3 then ',' :: ch :: group3Rev rest 1 else ch :: group3Rev rest (k + 1)

/-- en-US thousands grouping of a most-significant-first digit list. -/
def group3 (l : List Char) : List Char := (group3Rev l.reverse 0).reverse

/-- Left-pad a digit list with zeros up to the given length. -/
def padZerosTo (len : Nat) (l : List Char) : List Char :=
  List.replicate (len - l.length) '0' ++ l

/-- Keep the first minLen characters and strip trailing zeros from the
rest, as the Intl formatter does between its minimum and maximum fraction
digit counts. -/
def trimFracTo (minLen : Nat) (l : List Char) : List Char :=
  l.take minLen ++ ((l.drop minLen).reverse.dropWhile (fun ch => ch = '0')).reverse

/-- Model of Number.prototype.toLocaleString with the en-US locale and the
given minimum and maximum fraction digit counts: round half away from zero
at maxFrac digits, group the integer part in threes with commas, keep at
least minFrac fraction digits and strip only trailing zeros beyond that.
Exact on every value reachable in this development. -/
def jsToLocaleGrouped (v : Dec) (minFrac maxFrac : Nat) : String :=
  let scaled := v.scaleRound maxFrac
  let ip := scaled / 10 ^ maxFrac
  let fp := scaled % 10 ^ maxFrac
  let frac := trimFracTo minFrac (padZerosTo maxFrac (if maxFrac = 0 then [] else natChars fp))
  (if v.isNeg then "-" else "") ++ String.mk (group3 (natChars ip)) ++
    (if frac.isEmpty then "" else "." ++ String.mk frac)

/-- toLocaleString on a parseFloat result: the two infinities render as
the infinity sign, a finite value as its grouped decimal rendering. -/
def jsNumToLocale (v : JsNum) (minFrac maxFrac : Nat) : String :=
  match v with
  | .fin d => jsToLocaleGrouped d minFrac maxFrac
  | .posInf => "∞"
  | .negInf => "-∞"

/-- Model of Number.prototype.toFixed: round half away from zero and render
with exactly d fraction digits, without grouping. -/
def jsToFixed (v : Dec) (d : Nat) : String :=
  let scaled := v.scaleRound d
  let ip := scaled / 10 ^ d
  let fp := scaled % 10 ^ d
  (if v.isNeg then "-" else "") ++ String.mk (natChars ip) ++
    (if d = 0 then "" else "." ++ String.mk (padZerosTo d (natChars fp)))

/-- Model of the default JavaScript number-to-string conversion for the
decimals reachable here: render the shortest terminating decimal
expansion (k is the least scale at which the value is integral; the scale
of the representation always works, so the search always succeeds). -/
def jsNumToString (v : Dec) : String :=
  let k := (((List.range (v.exp + 1)).filter
    (fun j => (v.num.natAbs * 10 ^ j) % 10 ^ v.exp == 0)).head?).getD v.exp
  let scaled := v.num.natAbs * 10 ^ k / 10 ^ v.exp
  let ip := scaled / 10 ^ k
  let fp := scaled % 10 ^ k
  (if v.isNeg then "-" else "") ++ String.mk (natChars ip) ++
    (if k = 0 then "" else "." ++ String.mk (padZerosTo k (natChars fp)))

/-! ## Data model (types/spreadsheet.ts) -/

/-- A scalar cell value: the string-or-number union of the source. -/
inductive CellValue where
  | str (s : String)
  | num (v : Dec)
deriving DecidableEq

/-- CellStyle with every field optional, which also serves as the partial
style carried by a style operation. -/
structure CellStyle where
  bold : Option Bool := none
  italic : Option Bool := none
  textAlign : Option String := none
  backgroundColor : Option String := none
deriving DecidableEq

/-- A cell override. -/
structure Cell where
  value : CellValue
  style : Option CellStyle := none
  formula : Option String := none
deriving DecidableEq

/-- Column format options (the nested validation block of the source is
unused by the engine and omitted). -/
structure Format where
  decimals : Option Nat := none
  currency : Option String := none
  dateFormat : Option String := none
deriving DecidableEq

/-- A column descriptor. The source narrows type to an eight-string union;
it is matched as a string by the validator, so it is kept as a string. -/
structure Column where
  key : String
  name : String
  type : String
  format : Option Format := none
deriving DecidableEq

/-- An item (row record): column key to scalar, modelled as an
insertion-ordered association list like every JavaScript object here. -/
abbrev Item := List (String × CellValue)

structure SpreadsheetData where
  columns : List Column
  items : List Item
deriving DecidableEq

structure CellPosition where
  row : Int
  col : Int
deriving DecidableEq

/-- A cell range. The second corner is named stop because the source field
name end is a reserved word in Lean. -/
structure CellRange where
  start : CellPosition
  stop : CellPosition
deriving DecidableEq

/-- The sparse cell-override map. -/
abbrev CellMap := List (String × Cell)

/-- JavaScript object assignment on an insertion-ordered association list:
update in place when the key is present, append otherwise. -/
def setA {β : Type} (m : List (String × β)) (k : String) (v : β) : List (String × β) :=
  if m.any (fun p => p.1 == k) then
    m.map (fun p => if p.1 == k then (k, v) else p)
  else m ++ [(k, v)]

/-- JavaScript delete of a key on an association list. -/
def eraseA {β : Type} (m : List (String × β)) (k : String) : List (String × β) :=
  m.filter (fun p => p.1 != k)

/-! ## Validation and formatting service (cellUtils.ts) -/

structure ValidationResult where
  isValid : Bool
  error : Option String := none
  formattedValue : Option String := none
deriving DecidableEq

/-- JavaScript falsiness of a scalar cell value (the empty string or the
number zero; NaN is unreachable here). -/
def isFalsyValue : CellValue → Bool
  | .str s => s == ""
  | .num v => v.num == 0

/-- Strict equality of a scalar against the number literal zero (any
numeric zero, never a string). -/
def isJsZeroNum : CellValue → Bool
  | .str _ => false
  | .num v => v.num == 0

/-- String(value) on a scalar. -/
def jsStringOf : CellValue → String
  | .str s => s
  | .num v => jsNumToString v

/-- The email regular expression of the source: one or more characters that
are neither whitespace nor an at sign, an at sign, one or more such
characters, a dot, then one or more such characters, anchored on both
sides. Equivalently: exactly one at sign, no whitespace, a nonempty local
part, and a domain part containing a dot that is neither its first nor its
last character. -/
def emailMatch (s : String) : Bool :=
  match splitOnChar '@' s.toList with
  | [p1, p2] =>
    !p1.isEmpty && !p2.isEmpty && (p1 ++ p2).all (fun ch => !isWsCh ch) &&
      ((p2.drop 1).dropLast).contains '.'
  | _ => false

/-- Coarse model of WHATWG URL validity for the strings this code base
builds: an http or https URL with a nonempty remainder after the scheme,
or any other string containing a colon, which new URL accepts as a scheme.
Not claim-relevant; kept total and executable. -/
def urlOk (t : String) : Bool :=
  (t.startsWith "http://" && t.length > 7) || (t.startsWith "https://" && t.length > 8) ||
    (!t.startsWith "http" && t.toList.contains ':')

/-- Model of new Date(s) restricted to the slash form month/day/year and
the dash form year-month-day with plausible calendar ranges; every other
input is treated as an invalid date. The full JavaScript Date parser
accepts more formats; none are relevant to the claims. The triple is
(month, day, year) as rendered by formatDate. -/
def jsDateParse (s : String) : Option (Nat × Nat × Nat) :=
  let numSeg := fun (seg : List Char) => !seg.isEmpty && seg.all isDigitCh
  match splitOnChar '/' s.toList with
  | [m, d, y] =>
    if numSeg m && numSeg d && numSeg y &&
        decide (1 ≤ digitsToNat m ∧ digitsToNat m ≤ 12 ∧ 1 ≤ digitsToNat d ∧ digitsToNat d ≤ 31) then
      some (digitsToNat m, digitsToNat d, digitsToNat y)
    else none
  | _ =>
    match splitOnChar '-' s.toList with
    | [y, m, d] =>
      if numSeg y && numSeg m && numSeg d &&
          decide (1 ≤ digitsToNat m ∧ digitsToNat m ≤ 12 ∧ 1 ≤ digitsToNat d ∧ digitsToNat d ≤ 31) then
        some (digitsToNat m, digitsToNat d, digitsToNat y)
      else none
    | _ => none

/-- Source formatDate: render a parsed date per the requested pattern with
two-digit month and day. -/
def formatDate (t : Nat × Nat × Nat) (format : String) : String :=
  let month := String.mk (padZerosTo 2 (natChars t.1))
  let day := String.mk (padZerosTo 2 (natChars t.2.1))
  let year := String.mk (natChars t.2.2)
  if format = "MM/DD/YYYY" then month ++ "/" ++ day ++ "/" ++ year
  else if format = "DD/MM/YYYY" then day ++ "/" ++ month ++ "/" ++ year
  else if format = "YYYY-MM-DD" then year ++ "-" ++ month ++ "-" ++ day
  else month ++ "/" ++ day ++ "/" ++ year

/-- Source validateCellValue. The first guard returns early exactly when
the value is falsy and not the number zero, that is, on the empty string.
In the number case the source computes the fraction digit count as
format.decimals OR 2, so a provided zero falls back to 2. -/
def validateCellValue (value : CellValue) (columnType : String) (format : Option Format) :
    ValidationResult :=
  if isFalsyValue value && !isJsZeroNum value then
    { isValid := true, formattedValue := some "" }
  else
    let stringValue := stringTrim (jsStringOf value)
    if columnType = "text" then { isValid := true, formattedValue := some stringValue }
    else if columnType = "number" then
      match jsParseFloat stringValue with
      | none => { isValid := false, error := some "Must be a valid number" }
      | some num =>
        let decimals :=
          match format with
          | some f =>
            match f.decimals with
            | some d => if d = 0 then 2 else d
            | none => 2
          | none => 2
        { isValid := true, formattedValue := some (jsNumToLocale num decimals decimals) }
    else if columnType = "currency" then
      match jsParseFloat (String.mk (stringValue.toList.filter
          (fun ch => !(ch == '$' || ch == ',')))) with
      | none => { isValid := false, error := some "Must be a valid currency amount" }
      | some num =>
        let code :=
          match format with
          | some f =>
            match f.currency with
            | some c => if c = "" then "USD" else c
            | none => "USD"
          | none => "USD"
        let symbol := if code = "USD" then "$" else code
        { isValid := true,
          formattedValue := some (match num with
            | .fin d => (if d.isNeg then "-" else "") ++ symbol ++ jsToLocaleGrouped d.abs 2 2
            | .posInf => symbol ++ "∞"
            | .negInf => "-" ++ symbol ++ "∞") }
    else if columnType = "percentage" then
      match jsParseFloat (String.mk (stringValue.toList.filter (fun ch => ch != '%'))) with
      | none => { isValid := false, error := some "Must be a valid percentage" }
      | some num =>
        { isValid := true,
          formattedValue := some ((match num with
            | .fin d => jsToFixed d 1
            | .posInf => "Infinity"
            | .negInf => "-Infinity") ++ "%") }
    else if columnType = "date" then
      match jsDateParse stringValue with
      | none => { isValid := false, error := some "Must be a valid date (MM/DD/YYYY)" }
      | some t =>
        let dateFormat :=
          match format with
          | some f =>
            match f.dateFormat with
            | some p => if p = "" then "MM/DD/YYYY" else p
            | none => "MM/DD/YYYY"
          | none => "MM/DD/YYYY"
        { isValid := true, formattedValue := some (formatDate t dateFormat) }
    else if columnType = "email" then
      if emailMatch stringValue then
        { isValid := true, formattedValue := some (String.mk (stringValue.toList.map Char.toLower)) }
      else { isValid := false, error := some "Must be a valid email address" }
    else if columnType = "url" then
      if urlOk (if stringValue.startsWith "http" then stringValue else "https://" ++ stringValue) then
        { isValid := true, formattedValue := some stringValue }
      else { isValid := false, error := some "Must be a valid URL" }
    else if columnType = "boolean" then
      let boolValue := String.mk (stringValue.toList.map Char.toLower)
      if ["true", "false", "yes", "no", "1", "0"].contains boolValue then
        { isValid := true,
          formattedValue := some (if ["true", "yes", "1"].contains boolValue then "Yes" else "No") }
      else { isValid := false, error := some "Must be Yes/No, True/False, or 1/0" }
    else { isValid := true, formattedValue := some stringValue }

/-! ## Grid store state and operations (useSpreadsheet.ts) -/

/-- A history entry. The source pushes a shallow copy of the whole state,
whose own history and historyIndex fields are dead: every restore
overwrites them with the live values. The snapshot here keeps exactly the
observable fields. -/
structure Snapshot where
  data : SpreadsheetData
  cells : CellMap
  selectedCell : Option CellPosition
  selectedRange : Option CellRange
  editingCell : Option CellPosition
deriving DecidableEq

structure SpreadsheetState where
  data : SpreadsheetData
  cells : CellMap
  selectedCell : Option CellPosition := none
  selectedRange : Option CellRange := none
  editingCell : Option CellPosition := none
  history : List Snapshot := []
  historyIndex : Int := -1
deriving DecidableEq

/-- The closed operation vocabulary. -/
inductive CellOperation where
  | setValue (position : CellPosition) (value : CellValue)
  | setStyle (position : CellPosition) (style : CellStyle)
  | setFormula (position : CellPosition) (formula : String)
  | selectCell (position : CellPosition)
  | selectRange (range : CellRange)
  | startEditing (position : CellPosition)
  | stopEditing
  | addColumn (index : Option Int) (name : Option String)
  | addRow (index : Option Int)
  | deleteColumn (index : Int)
  | deleteRow (index : Int)
  | updateColumnName (columnIndex : Int) (newName : String)
  | updateColumnType (columnIndex : Int) (columnType : String) (format : Option Format)
  | sortColumn (columnIndex : Int) (direction : String)
  | undo
  | redo
deriving DecidableEq

/-- JavaScript array indexing: a negative or past-the-end index reads
undefined. -/
def listGetInt {α : Type} (l : List α) (i : Int) : Option α :=
  if 0 ≤ i then l.get? i.toNat else none

/-- Array.prototype.slice from 0 to e: a negative e counts from the end,
clamped at zero. -/
def jsSliceTo {α : Type} (l : List α) (e : Int) : List α :=
  if e < 0 then l.take (l.length - (-e).toNat) else l.take e.toNat

/-- Array.prototype.slice with argument -50: the last fifty elements. -/
def lastFifty {α : Type} (l : List α) : List α := l.drop (l.length - 50)

/-- Array.prototype.splice insertion with JavaScript index clamping. -/
def spliceInsert {α : Type} (l : List α) (i : Int) (a : α) : List α :=
  let j := if i < 0 then l.length - (-i).toNat else min i.toNat l.length
  l.take j ++ a :: l.drop j

/-- Array.prototype.filter keeping the elements whose index differs from
the given one. -/
def filterIdxNe {α : Type} (l : List α) (index : Int) : List α :=
  (l.enum.filter (fun p => (p.1 : Int) != index)).map (fun p => p.2)

def snapshotOf (st : SpreadsheetState) : Snapshot :=
  { data := st.data, cells := st.cells, selectedCell := st.selectedCell,
    selectedRange := st.selectedRange, editingCell := st.editingCell }

/-- Source saveToHistory: drop the redo tail, push a snapshot of the
current state, keep the last fifty entries, and set the index to the
length of the untruncated array minus one (which is not the index of the
last retained entry when truncation occurred). -/
def saveToHistory (st : SpreadsheetState) : SpreadsheetState :=
  let newHistory := jsSliceTo st.history (st.historyIndex + 1) ++ [snapshotOf st]
  { st with history := lastFifty newHistory, historyIndex := (newHistory.length : Int) - 1 }

/-- The override created by a style or formula write on a fresh key. -/
def emptyCell : Cell := { value := .str "" }

/-- The object spread used by the set-value case: copy the existing
override if present and replace its value; a fresh override carries only
the value. -/
def withValue (old : Option Cell) (v : CellValue) : Cell :=
  match old with
  | some c => { c with value := v }
  | none => { value := v }

/-- The fallback: validation.formattedValue OR operation.value (an absent
or empty formatted value is falsy). -/
def jsOrFormatted (f : Option String) (v : CellValue) : CellValue :=
  match f with
  | some s => if s = "" then v else .str s
  | none => v

/-- The style spread: fields named by the incoming partial style replace
the corresponding fields of the existing style; other fields persist. -/
def mergeStyle (old : Option CellStyle) (incoming : CellStyle) : CellStyle :=
  let o := old.getD {}
  { bold := incoming.bold.or o.bold,
    italic := incoming.italic.or o.italic,
    textAlign := incoming.textAlign.or o.textAlign,
    backgroundColor := incoming.backgroundColor.or o.backgroundColor }

/-- NaN renders as the three letters NaN inside a template string. -/
def intCharsOpt (i : Option Int) : List Char :=
  match i with
  | some v => intChars v
  | none => ['N', 'a', 'N']

/-- One iteration of the override-remap loop of the delete-column case: the
current key is parsed; at the deleted column the override is removed, to
the right of it the entry is rewritten one column left (assignment first,
then deletion of the old key), reading the map live. With unique keys the
current key is always present, so the missing-lookup branch (on which the
JavaScript would store undefined) reduces to the deletion alone. -/
def remapStepCol (index : Int) (m : CellMap) (cellKey : String) : CellMap :=
  let parsed := parseCellKey cellKey
  match parsed.2 with
  | some cellCol =>
    if cellCol = index then eraseA m cellKey
    else if index < cellCol then
      let newKey := String.mk (intCharsOpt parsed.1 ++ '-' :: intChars (cellCol - 1))
      match List.lookup cellKey m with
      | some v => eraseA (setA m newKey v) cellKey
      | none => eraseA m cellKey
    else m
  | none => m

/-- One iteration of the override-remap loop of the delete-row case,
symmetric on the row coordinate. -/
def remapStepRow (index : Int) (m : CellMap) (cellKey : String) : CellMap :=
  let parsed := parseCellKey cellKey
  match parsed.1 with
  | some cellRow =>
    if cellRow = index then eraseA m cellKey
    else if index < cellRow then
      let newKey := String.mk (intChars (cellRow - 1) ++ '-' :: intCharsOpt parsed.2)
      match List.lookup cellKey m with
      | some v => eraseA (setA m newKey v) cellKey
      | none => eraseA m cellKey
    else m
  | none => m

/-- The dispatch switch of useSpreadsheet. The parameter now stands for
Date.now, read only by the add-column case to mint a fresh column key.
Paths on which the JavaScript throws a TypeError return Except.error. -/
def dispatch (now : Nat) (op : CellOperation) (st : SpreadsheetState) :
    Except Unit SpreadsheetState :=
  match op with
  | .setValue position value =>
    let key := getCellKey position.row position.col
    let newCells :=
      match listGetInt st.data.columns position.col with
      | some column =>
        if value != .str "" then
          let validation := validateCellValue value column.type column.format
          let finalValue := jsOrFormatted validation.formattedValue value
          setA st.cells key (withValue (List.lookup key st.cells) finalValue)
        else
          setA st.cells key (withValue (List.lookup key st.cells) value)
      | none => setA st.cells key (withValue (List.lookup key st.cells) value)
    Except.ok (saveToHistory { st with cells := newCells })
  | .setStyle position style =>
    let key := getCellKey position.row position.col
    let existingCell := (List.lookup key st.cells).getD emptyCell
    let styled := { existingCell with style := some (mergeStyle existingCell.style style) }
    Except.ok { st with cells := setA st.cells key styled }
  | .setFormula position formula =>
    let key := getCellKey position.row position.col
    let existingCell := (List.lookup key st.cells).getD emptyCell
    let withFormula := { existingCell with formula := some formula }
    Except.ok (saveToHistory { st with cells := setA st.cells key withFormula })
  | .addColumn index name =>
    let newColumnKey := "column_" ++ String.mk (natChars now)
    let newColumn : Column :=
      { key := newColumnKey,
        name := name.getD ("Column " ++ String.mk (natChars (st.data.columns.length + 1))),
        type := "text" }
    let insertIndex := index.getD (st.data.columns.length : Int)
    let newColumns := spliceInsert st.data.columns insertIndex newColumn
    let newItems := st.data.items.map (fun item => setA item newColumnKey (.str ""))
    Except.ok (saveToHistory { st with data := { columns := newColumns, items := newItems } })
  | .addRow index =>
    let newRow := st.data.columns.foldl (fun acc column => setA acc column.key (.str "")) []
    let insertIndex := index.getD (st.data.items.length : Int)
    Except.ok (saveToHistory { st with data :=
      { st.data with items := spliceInsert st.data.items insertIndex newRow } })
  | .deleteColumn index =>
    if index < (st.data.columns.length : Int) then do
      let columnToDelete := listGetInt st.data.columns index
      let newColumns := filterIdxNe st.data.columns index
      let newItems ← st.data.items.mapM (fun item =>
        match columnToDelete with
        | some c => Except.ok (eraseA item c.key)
        | none => Except.error ())
      let newCells := (st.cells.map Prod.fst).foldl (remapStepCol index) st.cells
      Except.ok (saveToHistory { st with
        data := { columns := newColumns, items := newItems }, cells := newCells })
    else Except.ok st
  | .deleteRow index =>
    if index < (st.data.items.length : Int) then
      let newItems := filterIdxNe st.data.items index
      let newCells := (st.cells.map Prod.fst).foldl (remapStepRow index) st.cells
      Except.ok (saveToHistory { st with
        data := { st.data with items := newItems }, cells := newCells })
    else Except.ok st
  | .selectCell position =>
    Except.ok { st with selectedCell := some position, selectedRange := none }
  | .selectRange range =>
    Except.ok { st with selectedRange := some range, selectedCell := none }
  | .startEditing position => Except.ok { st with editingCell := some position }
  | .stopEditing => Except.ok { st with editingCell := none }
  | .updateColumnName columnIndex newName =>
    if 0 ≤ columnIndex ∧ columnIndex < (st.data.columns.length : Int) then
      let updatedColumns := st.data.columns.mapIdx (fun i c =>
        if (i : Int) = columnIndex then { c with name := newName } else c)
      Except.ok (saveToHistory { st with data := { st.data with columns := updatedColumns } })
    else Except.ok st
  | .updateColumnType columnIndex columnType format =>
    if 0 ≤ columnIndex ∧ columnIndex < (st.data.columns.length : Int) then
      let updatedColumns := st.data.columns.mapIdx (fun i c =>
        if (i : Int) = columnIndex then
          { c with type := columnType, format := some (format.getD ({} : Format)) }
        else c)
      Except.ok (saveToHistory { st with data := { st.data with columns := updatedColumns } })
    else Except.ok st
  | .sortColumn _ _ => Except.ok st
  | .undo =>
    if 0 < st.historyIndex then
      match listGetInt st.history (st.historyIndex - 1) with
      | some previousState =>
        let restored : SpreadsheetState :=
          { data := previousState.data, cells := previousState.cells,
            selectedCell := previousState.selectedCell,
            selectedRange := previousState.selectedRange,
            editingCell := previousState.editingCell,
            history := st.history, historyIndex := st.historyIndex - 1 }
        Except.ok restored
      | none => Except.error ()
    else Except.ok st
  | .redo =>
    if st.historyIndex < (st.history.length : Int) - 1 then
      match listGetInt st.history (st.historyIndex + 1) with
      | some nextState =>
        let restored : SpreadsheetState :=
          { data := nextState.data, cells := nextState.cells,
            selectedCell := nextState.selectedCell, selectedRange := nextState.selectedRange,
            editingCell := nextState.editingCell,
            history := st.history, historyIndex := st.historyIndex + 1 }
        Except.ok restored
      | none => Except.error ()
    else Except.ok st

/-- Source getCellRawValue. An override wins outright; otherwise the guard
(row below the item count and col below the column count) admits negative
indices, on which the JavaScript then throws reading a property of
undefined. -/
def getCellRawValue (st : SpreadsheetState) (row col : Int) : Except Unit CellValue :=
  match List.lookup (getCellKey row col) st.cells with
  | some cell => Except.ok cell.value
  | none =>
    if row < (st.data.items.length : Int) ∧ col < (st.data.columns.length : Int) then
      match listGetInt st.data.items row, listGetInt st.data.columns col with
      | some item, some column =>
        Except.ok (match List.lookup column.key item with
          | some v => if isFalsyValue v then .str "" else v
          | none => .str "")
      | _, _ => Except.error ()
    else Except.ok (.str "")

/-- Source getCellDisplayValue: a numeric raw value in a number or currency
column renders with grouping and at most two fraction digits; everything
else renders with String. -/
def getCellDisplayValue (st : SpreadsheetState) (row col : Int) : Except Unit String := do
  let rawValue ← getCellRawValue st row col
  match listGetInt st.data.columns col, rawValue with
  | some column, .num v =>
    if column.type = "number" ∨ column.type = "currency" then
      Except.ok (jsToLocaleGrouped v 0 2)
    else Except.ok (jsStringOf rawValue)
  | _, _ => Except.ok (jsStringOf rawValue)

/-- Source getCellStyle. -/
def getCellStyle (st : SpreadsheetState) (row col : Int) : CellStyle :=
  match List.lookup (getCellKey row col) st.cells with
  | some cell => cell.style.getD ({} : CellStyle)
  | none => ({} : CellStyle)

/-! ## Range-move engine (the cell-move branch of Spreadsheet.tsx) -/

structure MoveCellData where
  sourcePos : CellPosition
  targetPos : CellPosition
  value : String
  style : CellStyle
deriving DecidableEq

/-- The inclusive integer range of a for loop from a to b. -/
def intRange (a b : Int) : List Int :=
  (List.range (b + 1 - a).toNat).map (fun i => a + Int.ofNat i)

/-- The collection pass of the range-move handler: for every cell of the
normalized dragged range, keep its display value and style when the offset
target lies inside the dataset bounds and the display value is nonempty.
All reads use the pre-move state, as the source closure does. -/
def collectCellData (st : SpreadsheetState)
    (minRow maxRow minCol maxCol rowOffset colOffset : Int) :
    Except Unit (List MoveCellData) :=
  (intRange minRow maxRow).foldlM (fun acc row =>
    (intRange minCol maxCol).foldlM (fun acc col => do
      let newRow := row + rowOffset
      let newCol := col + colOffset
      if 0 ≤ newRow ∧ newRow < (st.data.items.length : Int) ∧
          0 ≤ newCol ∧ newCol < (st.data.columns.length : Int) then do
        let value ← getCellDisplayValue st row col
        let style := getCellStyle st row col
        let entry : MoveCellData :=
          { sourcePos := ⟨row, col⟩, targetPos := ⟨newRow, newCol⟩, value := value, style := style }
        if value ≠ "" then pure (acc ++ [entry]) else pure acc
      else pure acc) acc) []

/-- The cell-move branch of the mouse-up handler: normalize the dragged
range, compute the offset from the drag anchor to the drop cell, collect
all cell data first, clear every collected source with an empty set-value,
then write every collected target value and style, and finally select the
shifted range. The anchor pair is the parsed draggedCellId. -/
def handleMouseUpMove (st : SpreadsheetState) (draggedRange : CellRange)
    (sourceRow sourceCol dropRow dropCol : Int) : Except Unit SpreadsheetState := do
  let minRow := min draggedRange.start.row draggedRange.stop.row
  let maxRow := max draggedRange.start.row draggedRange.stop.row
  let minCol := min draggedRange.start.col draggedRange.stop.col
  let maxCol := max draggedRange.start.col draggedRange.stop.col
  let rowOffset := dropRow - sourceRow
  let colOffset := dropCol - sourceCol
  let cellData ← collectCellData st minRow maxRow minCol maxCol rowOffset colOffset
  let st1 ← cellData.foldlM (fun s cd => dispatch 0 (.setValue cd.sourcePos (.str "")) s) st
  let st2 ← cellData.foldlM (fun s cd => do
    let s ← dispatch 0 (.setValue cd.targetPos (.str cd.value)) s
    dispatch 0 (.setStyle cd.targetPos cd.style) s) st1
  dispatch 0 (.selectRange
    { start := ⟨minRow + rowOffset, minCol + colOffset⟩,
      stop := ⟨maxRow + rowOffset, maxCol + colOffset⟩ }) st2

/-! ## Derived notions used by the claim statements -/

/-- The history invariant that actually holds on this engine: the index
lies between -1 and the history length, and at most fifty entries are
retained. -/
def historyInv (st : SpreadsheetState) : Prop :=
  -1 ≤ st.historyIndex ∧ st.historyIndex ≤ (st.history.length : Int) ∧ st.history.length ≤ 50

instance (st : SpreadsheetState) : Decidable (historyInv st) := by
  unfold historyInv; infer_instance

/-- One committing set-value dispatch (the set-value case never fails; the
error fallback is never taken). -/
def commitStep (st : SpreadsheetState) : SpreadsheetState :=
  match dispatch 0 (.setValue ⟨0, 0⟩ (.str "x")) st with
  | .ok s => s
  | .error _ => st

/-- n committing dispatches in sequence. -/
def commitN : Nat → SpreadsheetState → SpreadsheetState
  | 0, st => st
  | n + 1, st => commitStep (commitN n st)

/-- The state a fresh hook starts from when no dataset is supplied. -/
def emptyState : SpreadsheetState := { data := { columns := [], items := [] }, cells := [] }

/-- The cell map built from coordinate-labelled entries, in the given
insertion order. -/
def entriesToCells (entries : List ((Nat × Nat) × Cell)) : CellMap :=
  entries.map (fun e => (getCellKey (e.1.1 : Int) (e.1.2 : Int), e.2))

/-- Per-row ascending iteration order: whenever two entries share a row,
the earlier one has the smaller column. -/
def RowAscending (entries : List ((Nat × Nat) × Cell)) : Prop :=
  entries.Pairwise (fun a b => a.1.1 = b.1.1 → a.1.2 < b.1.2)

/-- Proof-tracking function for the override remap of a column delete at d:
given the original lookup function L and the list of entries still to be
processed, it gives the current lookup value at each coordinate pair. -/
def remapTrack (d : Nat) (L : Nat → Nat → Option Cell)
    (td : List ((Nat × Nat) × Cell)) (r c : Nat) : Option Cell :=
  if (r, c) ∈ td.map (fun e => e.1) then L r c
  else if c < d then L r c
  else if (r, c + 1) ∈ td.map (fun e => e.1) then none
  else L r (c + 1)

/-! ## Concrete fixtures used by the claim evaluations -/

/-- A one-column, one-item dataset with no overrides. -/
def oneByOneState : SpreadsheetState :=
  { data := { columns := [{ key := "c0", name := "c0", type := "text" }],
              items := [[("c0", CellValue.str "x")]] },
    cells := [] }

/-- The dataset of the repository test suite (useSpreadsheet.test.ts). -/
def mockData : SpreadsheetData :=
  { columns := [{ key := "product", name := "product", type := "text" },
                { key := "2020", name := "2020", type := "currency" },
                { key := "2021", name := "2021", type := "currency" }],
    items := [[("product", CellValue.str "Widget A"), ("2020", CellValue.num ⟨100, 0⟩),
               ("2021", CellValue.num ⟨150, 0⟩)],
              [("product", CellValue.str "Widget B"), ("2020", CellValue.num ⟨200, 0⟩),
               ("2021", CellValue.num ⟨250, 0⟩)]] }

def mockState : SpreadsheetState := { data := mockData, cells := [] }

/-- Three text columns over one row, with overrides inserted at column 2
first and at column 1 second (a descending insertion order). -/
def clobberState : SpreadsheetState :=
  { data := { columns := [{ key := "c0", name := "c0", type := "text" },
                          { key := "c1", name := "c1", type := "text" },
                          { key := "c2", name := "c2", type := "text" }],
              items := [[("c0", CellValue.str "p"), ("c1", CellValue.str "q"),
                         ("c2", CellValue.str "r")]] },
    cells := [("0-2", { value := CellValue.str "B" }), ("0-1", { value := CellValue.str "A" })] }

/-- Two overrides on row 0 inserted in ascending column order. -/
def ascEntries : List ((Nat × Nat) × Cell) :=
  [((0, 1), { value := CellValue.str "A" }), ((0, 2), { value := CellValue.str "B" })]

/-- The three-column one-row dataset with the ascending override map. -/
def ascState : SpreadsheetState :=
  { data := clobberState.data, cells := entriesToCells ascEntries }

/-- A three-by-three text dataset holding A B / C D in its upper-left
two-by-two corner and empty strings elsewhere. -/
def moveState3 : SpreadsheetState :=
  { data := { columns := [{ key := "c0", name := "c0", type := "text" },
                          { key := "c1", name := "c1", type := "text" },
                          { key := "c2", name := "c2", type := "text" }],
              items := [[("c0", CellValue.str "A"), ("c1", CellValue.str "B"),
                         ("c2", CellValue.str "")],
                        [("c0", CellValue.str "C"), ("c1", CellValue.str "D"),
                         ("c2", CellValue.str "")],
                        [("c0", CellValue.str ""), ("c1", CellValue.str ""),
                         ("c2", CellValue.str "")]] },
    cells := [] }

/-- A two-by-two text dataset holding A B / C D. -/
def moveState2 : SpreadsheetState :=
  { data := { columns := [{ key := "c0", name := "c0", type := "text" },
                          { key := "c1", name := "c1", type := "text" }],
              items := [[("c0", CellValue.str "A"), ("c1", CellValue.str "B")],
                        [("c0", CellValue.str "C"), ("c1", CellValue.str "D")]] },
    cells := [] }

/-- The single collected entry of the two-by-two move by offset one-one:
the corner cell A relocating to the overlap cell. -/
def moveEntryA : MoveCellData :=
  { sourcePos := ⟨0, 0⟩, targetPos := ⟨1, 1⟩, value := "A", style := {} }

/-- One text column and one item with a nonempty base value. -/
def oneValState : SpreadsheetState :=
  { data := { columns := [{ key := "c0", name := "c0", type := "text" }],
              items := [[("c0", CellValue.str "hello")]] },
    cells := [] }

/-- A state carrying two history snapshots with the index on the second. -/
def twoSnapState : SpreadsheetState :=
  { data := oneByOneState.data,
    cells := [("0-0", { value := CellValue.str "v2" })],
    history := [snapshotOf oneByOneState,
                { data := oneByOneState.data,
                  cells := [("0-0", { value := CellValue.str "v1" })],
                  selectedCell := none, selectedRange := none, editingCell := none }],
    historyIndex := 1 }

/-! # Theorems

First the supporting lemmas about digit strings, splitting and
association-list operations; then one theorem per claim. -/

theorem natCharsAux_eq_digits (fuel : Nat) : ∀ n : Nat, n ≤ fuel →
    natCharsAux fuel n = (Nat.digits 10 n).map (fun d => Char.ofNat (48 + d)) := by
  induction fuel with
  | zero =>
    intro n hn
    interval_cases n
    simp [natCharsAux]
  | succ fuel ih =>
    intro n hn
    by_cases h0 : n = 0
    · subst h0; simp [natCharsAux]
    · rw [natCharsAux, if_neg h0,
        Nat.digits_def' (by norm_num : 1 < 10) (Nat.pos_of_ne_zero h0), List.map_cons]
      congr 1
      have hlt : n / 10 < n := Nat.div_lt_self (Nat.pos_of_ne_zero h0) (by norm_num)
      exact ih (n / 10) (by omega)

theorem natChars_eq (n : Nat) :
    natChars n =
      if n = 0 then ['0'] else (Nat.digits 10 n).reverse.map (fun d => Char.ofNat (48 + d)) := by
  unfold natChars
  by_cases h : n = 0
  · simp [h]
  · rw [if_neg h, if_neg h, natCharsAux_eq_digits n n le_rfl, List.map_reverse]

theorem chr_digit_isDigit (d : Nat) (hd : d < 10) : isDigitCh (Char.ofNat (48 + d)) = true := by
  interval_cases d <;> decide

theorem mem_natChars_isDigit (n : Nat) : ∀ ch ∈ natChars n, isDigitCh ch = true := by
  rw [natChars_eq]
  split
  · intro ch hch
    simp only [List.mem_singleton] at hch
    subst hch; decide
  · intro ch hch
    simp only [List.mem_map, List.mem_reverse] at hch
    obtain ⟨d, hd, rfl⟩ := hch
    exact chr_digit_isDigit d (Nat.digits_lt_base (by norm_num) hd)

theorem isDigit_ne_dash {ch : Char} (h : isDigitCh ch = true) : ch ≠ '-' := by
  intro heq; subst heq; simp [isDigitCh] at h

theorem chr_digit_toNat (d : Nat) (hd : d < 10) : (Char.ofNat (48 + d)).toNat = 48 + d := by
  interval_cases d <;> rfl

theorem foldl_base10 (ds : List Nat) (acc : Nat) :
    ds.foldl (fun a d => 10 * a + d) acc = acc * 10 ^ ds.length + Nat.ofDigits 10 ds.reverse := by
  induction ds generalizing acc with
  | nil => simp [Nat.ofDigits]
  | cons d ds ih =>
    rw [List.foldl_cons, ih, List.reverse_cons, Nat.ofDigits_append]
    simp only [List.length_cons, List.length_reverse, Nat.ofDigits_singleton]
    ring

theorem foldl_map_chr (ds : List Nat) (hds : ∀ d ∈ ds, d < 10) (acc : Nat) :
    (ds.map (fun d => Char.ofNat (48 + d))).foldl (fun a ch => 10 * a + (ch.toNat - 48)) acc =
      ds.foldl (fun a d => 10 * a + d) acc := by
  induction ds generalizing acc with
  | nil => rfl
  | cons d ds ih =>
    have hd : d < 10 := hds d (List.mem_cons_self d ds)
    rw [List.map_cons, List.foldl_cons, List.foldl_cons, chr_digit_toNat d hd,
      Nat.add_sub_cancel_left]
    exact ih (fun x hx => hds x (List.mem_cons_of_mem d hx)) _

theorem digitsToNat_natChars (n : Nat) : digitsToNat (natChars n) = n := by
  unfold digitsToNat
  rw [natChars_eq]
  by_cases h : n = 0
  · subst h; rfl
  · rw [if_neg h,
      foldl_map_chr _ (fun d hd => Nat.digits_lt_base (by norm_num) (List.mem_reverse.mp hd)) 0,
      foldl_base10]
    simp [Nat.ofDigits_digits]

theorem splitOnChar_of_not_mem (sep : Char) (l : List Char) (h : sep ∉ l) :
    splitOnChar sep l = [l] := by
  induction l with
  | nil => rfl
  | cons ch rest ih =>
    have h1 : ¬ch = sep := fun he => h (he ▸ List.mem_cons_self ch rest)
    have h2 : sep ∉ rest := fun he => h (List.mem_cons_of_mem ch he)
    rw [splitOnChar]
    simp only [if_neg h1, ih h2]

theorem splitOnChar_append (sep : Char) (a b : List Char) (ha : sep ∉ a) :
    splitOnChar sep (a ++ sep :: b) = a :: splitOnChar sep b := by
  induction a with
  | nil => simp [splitOnChar]
  | cons ch a ih =>
    have h1 : ¬ch = sep := fun he => ha (he ▸ List.mem_cons_self ch a)
    have h2 : sep ∉ a := fun he => ha (List.mem_cons_of_mem ch he)
    rw [List.cons_append, splitOnChar]
    simp only [if_neg h1, ih h2]

theorem intChars_ofNat (n : Nat) : intChars (n : Int) = natChars n := by
  unfold intChars
  rw [if_neg (by omega), Int.natAbs_ofNat]

theorem jsNumber_natChars (n : Nat) :
    jsNumber (String.mk (natChars n)) = some (n : Int) := by
  unfold jsNumber
  have htl : (String.mk (natChars n)).toList = natChars n := rfl
  rw [htl, if_pos (List.all_eq_true.mpr (mem_natChars_isDigit n)), digitsToNat_natChars]

/-- Claim C8 core: decoding inverts encoding on non-negative coordinates. -/
theorem parseCellKey_getCellKey (r c : Nat) :
    parseCellKey (getCellKey (r : Int) (c : Int)) = (some (r : Int), some (c : Int)) := by
  unfold parseCellKey getCellKey
  rw [intChars_ofNat, intChars_ofNat]
  have hsplit : splitOnChar '-' (String.mk (natChars r ++ '-' :: natChars c)).toList =
      [natChars r, natChars c] := by
    have hr : '-' ∉ natChars r := fun hm =>
      isDigit_ne_dash (mem_natChars_isDigit r '-' hm) rfl
    have hc : '-' ∉ natChars c := fun hm =>
      isDigit_ne_dash (mem_natChars_isDigit c '-' hm) rfl
    show splitOnChar '-' (natChars r ++ '-' :: natChars c) = [natChars r, natChars c]
    rw [splitOnChar_append '-' _ _ hr, splitOnChar_of_not_mem '-' _ hc]
  rw [hsplit]
  simp only [List.map_cons, List.map_nil, jsNumber_natChars]

theorem getCellKey_nat_inj {r c r2 c2 : Nat}
    (h : getCellKey (r : Int) (c : Int) = getCellKey (r2 : Int) (c2 : Int)) :
    r = r2 ∧ c = c2 := by
  have h1 := parseCellKey_getCellKey r c
  have h2 := parseCellKey_getCellKey r2 c2
  rw [h, h2] at h1
  have hr : (r2 : Int) = (r : Int) := by
    have := congrArg Prod.fst h1
    simpa using this
  have hc : (c2 : Int) = (c : Int) := by
    have := congrArg Prod.snd h1
    simpa using this
  omega

/-! ## Association list lemmas -/

theorem lookup_cons_eq {β : Type} (k1 k2 : String) (v1 : β) (m : List (String × β)) :
    List.lookup k2 ((k1, v1) :: m) = if k2 = k1 then some v1 else List.lookup k2 m := by
  by_cases h : k2 = k1
  · subst h
    show (match k2 == k2 with | true => some v1 | false => List.lookup k2 m) = _
    rw [beq_self_eq_true k2]
    simp
  · have hb : (k2 == k1) = false := beq_eq_false_iff_ne.mpr h
    show (match k2 == k1 with | true => some v1 | false => List.lookup k2 m) = _
    rw [hb, if_neg h]

theorem lookup_map_update {β : Type} (m : List (String × β)) (k k2 : String) (v : β) :
    List.lookup k2 (m.map (fun p => if p.1 == k then (k, v) else p)) =
      if k2 = k then (List.lookup k m).map (fun _ => v) else List.lookup k2 m := by
  induction m with
  | nil => by_cases h : k2 = k <;> simp [h]
  | cons p m ih =>
    obtain ⟨k1, v1⟩ := p
    by_cases h1 : k1 = k
    · subst h1
      simp only [List.map_cons, beq_self_eq_true k1, if_pos, lookup_cons_eq, ih]
      by_cases h2 : k2 = k1
      · simp [h2]
      · simp [h2]
    · have h1b : (k1 == k) = false := beq_eq_false_iff_ne.mpr h1
      simp only [List.map_cons, h1b, Bool.false_eq_true, if_neg, not_false_iff,
        lookup_cons_eq, ih]
      rw [if_neg (show ¬k = k1 from fun he => h1 he.symm)]
      by_cases h2 : k2 = k1
      · subst h2
        simp [if_neg h1, if_pos rfl]
      · simp [if_neg h2]

theorem lookup_append_single {β : Type} (m : List (String × β)) (k k2 : String) (v : β) :
    List.lookup k2 (m ++ [(k, v)]) =
      match List.lookup k2 m with
      | some w => some w
      | none => if k2 = k then some v else none := by
  induction m with
  | nil => simp [lookup_cons_eq]
  | cons p m ih =>
    obtain ⟨k1, v1⟩ := p
    rw [List.cons_append, lookup_cons_eq, lookup_cons_eq]
    by_cases h2 : k2 = k1
    · simp [h2]
    · simp [h2, ih]

theorem lookup_none_of_any_false {β : Type} (m : List (String × β)) (k : String)
    (h : m.any (fun p => p.1 == k) = false) : List.lookup k m = none := by
  induction m with
  | nil => rfl
  | cons p m ih =>
    obtain ⟨k1, v1⟩ := p
    simp only [List.any_cons, Bool.or_eq_false_iff] at h
    have h1 : ¬k = k1 := fun he => by
      rw [he] at h
      simp at h
    rw [lookup_cons_eq, if_neg h1]
    exact ih h.2

theorem lookup_isSome_of_any_true {β : Type} (m : List (String × β)) (k : String)
    (h : m.any (fun p => p.1 == k) = true) : ∃ w, List.lookup k m = some w := by
  induction m with
  | nil => simp at h
  | cons p m ih =>
    obtain ⟨k1, v1⟩ := p
    rw [lookup_cons_eq]
    by_cases h1 : k = k1
    · exact ⟨v1, by rw [if_pos h1]⟩
    · rw [if_neg h1]
      apply ih
      simp only [List.any_cons, Bool.or_eq_true_iff] at h
      rcases h with h | h
      · exact absurd (beq_iff_eq.mp h) (fun he => h1 he.symm)
      · exact h

theorem lookup_setA {β : Type} (m : List (String × β)) (k k2 : String) (v : β) :
    List.lookup k2 (setA m k v) = if k2 = k then some v else List.lookup k2 m := by
  unfold setA
  by_cases hany : m.any (fun p => p.1 == k) = true
  · rw [if_pos hany, lookup_map_update]
    by_cases h : k2 = k
    · obtain ⟨w, hw⟩ := lookup_isSome_of_any_true m k hany
      simp [h, hw]
    · simp [h]
  · have hany2 : m.any (fun p => p.1 == k) = false := by
      revert hany
      cases m.any (fun p => p.1 == k) <;> simp
    rw [if_neg hany, lookup_append_single]
    by_cases h : k2 = k
    · subst h
      rw [lookup_none_of_any_false m k2 hany2]
    · simp only [if_neg h]
      cases List.lookup k2 m <;> rfl

theorem lookup_eraseA {β : Type} (m : List (String × β)) (k k2 : String) :
    List.lookup k2 (eraseA m k) = if k2 = k then none else List.lookup k2 m := by
  unfold eraseA
  induction m with
  | nil => by_cases h : k2 = k <;> simp [h]
  | cons p m ih =>
    obtain ⟨k1, v1⟩ := p
    by_cases h1 : k1 = k
    · subst h1
      have hb : (k1 != k1) = false := by simp
      rw [List.filter_cons, hb]
      simp only [Bool.false_eq_true, if_neg, not_false_iff, ih, lookup_cons_eq]
      by_cases h2 : k2 = k1
      · rw [if_pos h2, if_pos h2]
      · rw [if_neg h2, if_neg h2, if_neg h2]
    · have h1b : (k1 != k) = true := by simp [bne_iff_ne, h1]
      rw [List.filter_cons, h1b]
      simp only [if_pos]
      rw [lookup_cons_eq, lookup_cons_eq]
      by_cases h2 : k2 = k1
      · subst h2
        rw [if_pos rfl, if_pos rfl, if_neg (fun he => h1 he)]
      · rw [if_neg h2, if_neg h2, ih]

theorem lookup_entriesToCells_not_mem (entries : List ((Nat × Nat) × Cell)) (r c : Nat)
    (h : (r, c) ∉ entries.map (fun e => e.1)) :
    List.lookup (getCellKey (r : Int) (c : Int)) (entriesToCells entries) = none := by
  induction entries with
  | nil => rfl
  | cons e es ih =>
    simp only [List.map_cons, List.mem_cons] at h
    push_neg at h
    have hne : ¬getCellKey (r : Int) (c : Int) = getCellKey (e.1.1 : Int) (e.1.2 : Int) := by
      intro he
      obtain ⟨h1, h2⟩ := getCellKey_nat_inj he
      exact h.1 (by rw [Prod.ext_iff]; exact ⟨h1, h2⟩)
    show List.lookup _ ((getCellKey (e.1.1 : Int) (e.1.2 : Int), e.2) :: entriesToCells es) = none
    rw [lookup_cons_eq, if_neg hne]
    exact ih h.2

theorem mapM_loop_except_ok {α β : Type} (f : α → β) (l : List α) (acc : List β) :
    List.mapM.loop (fun a => (Except.ok (f a) : Except Unit β)) l acc =
      Except.ok (acc.reverse ++ l.map f) := by
  induction l generalizing acc with
  | nil =>
    show (pure acc.reverse : Except Unit (List β)) = Except.ok (acc.reverse ++ [].map f)
    simp [pure, Except.pure]
  | cons a l ih =>
    show (Except.ok (f a) >>= fun b => List.mapM.loop _ l (b :: acc)) = _
    rw [show ∀ (x : β) (g : β → Except Unit (List β)), (Except.ok x >>= g) = g x
      from fun _ _ => rfl]
    rw [ih]
    simp

theorem mapM_except_ok {α β : Type} (f : α → β) (l : List α) :
    l.mapM (fun a => (Except.ok (f a) : Except Unit β)) = Except.ok (l.map f) := by
  show List.mapM.loop _ l [] = _
  rw [mapM_loop_except_ok]
  simp

/-! ## Claim theorems: C8, C1, C2, C6, C7, and the C4 and C5 counterexamples -/

/-- C8: for all non-negative integers r and c, decode of encode returns
exactly (r, c): parseCellKey is a two-sided inverse of getCellKey on
non-negative row and column pairs (both components parse to defined
numbers), and no bounds validation happens at this layer. -/
theorem claim_C8_cell_key_roundtrip (r c : Nat) :
    parseCellKey (getCellKey (r : Int) (c : Int)) = (some (r : Int), some (c : Int)) :=
  parseCellKey_getCellKey r c

/-- C1 (code bug): dispatch is not total and invalid indices are not all
silent no-ops. Deleting the column at index -1 on a dataset with one
column and one item passes the upper-bound-only check, reads the key field
of an undefined column inside the item rewrite and throws a TypeError,
modelled as Except.error. Moreover a set-value at the out-of-bounds
position (5, 5) is not a no-op: it creates an override under key 5-5 and
commits a history entry. -/
theorem claim_C1_dispatch_totality :
    dispatch 0 (.deleteColumn (-1)) oneByOneState = Except.error () ∧
    (do
      let s ← dispatch 0 (.setValue ⟨5, 5⟩ (.str "z")) oneByOneState
      pure (List.lookup "5-5" s.cells, s.history.length)) =
      Except.ok (some { value := CellValue.str "z" }, 1) := ⟨rfl, rfl⟩

/-- C2 (code bug): undo cannot reach back to the state before the very
first commit. On the dataset of the repository test suite the original
display value at (0, 0) is Widget A; one committing set-value leaves
historyIndex at 0, so the undo guard (index strictly above zero) fails and
the display value stays Changed Value - the repository test expects
Widget A and an index above zero at this point. -/
theorem claim_C2_undo_first_commit :
    getCellDisplayValue mockState 0 0 = Except.ok "Widget A" ∧
    (do
      let s1 ← dispatch 0 (.setValue ⟨0, 0⟩ (.str "Changed Value")) mockState
      let s2 ← dispatch 0 CellOperation.undo s1
      pure (s1.historyIndex, ← getCellDisplayValue s2 0 0)) =
      Except.ok (0, "Changed Value") := ⟨rfl, rfl⟩

/-- C6: the range move applied as two phases (clear every collected source
first, then write every collected target) is correct on the overlapping
move of the claim: moving the two-by-two range at the origin by offset
(1, 1) over a three-by-three text dataset holding A B / C D leaves the
overlap cell (1, 1) with the original (0, 0) value A - not a value
corrupted by partial overwrite - the other three targets hold B, C and D,
and the vacated corner (0, 0) is empty. -/
theorem claim_C6_range_move_overlap :
    (do
      let st ← handleMouseUpMove moveState3 ⟨⟨0, 0⟩, ⟨1, 1⟩⟩ 0 0 1 1
      pure (← getCellDisplayValue st 1 1, ← getCellDisplayValue st 0 0,
            ← getCellDisplayValue st 1 2, ← getCellDisplayValue st 2 1,
            ← getCellDisplayValue st 2 2)) =
      Except.ok ("A", "", "B", "C", "D") := rfl

/-- C7 (counterexample): the claim states that a source cell whose target
falls outside the dataset bounds still has its source cleared. Moving the
full two-by-two dataset A B / C D by offset (1, 1), the sources (0, 1) and
(1, 0) have out-of-bounds targets, yet after the move they still display
their original non-empty values B and C: the code never clears them. -/
theorem claim_C7_counterexample :
    (do
      let st ← handleMouseUpMove moveState2 ⟨⟨0, 0⟩, ⟨1, 1⟩⟩ 0 0 1 1
      pure (← getCellDisplayValue st 0 1, ← getCellDisplayValue st 1 0)) =
      Except.ok ("B", "C") ∧ "B" ≠ "" ∧ "C" ≠ "" := ⟨rfl, by decide, by decide⟩

/-- A successful bind in the Except monad factors through a successful
first component. -/
theorem except_bind_ok {α β : Type} (x : Except Unit α) (f : α → Except Unit β) (b : β)
    (h : (x >>= f) = Except.ok b) : ∃ a, x = Except.ok a ∧ f a = Except.ok b := by
  cases x with
  | ok a => exact ⟨a, rfl, h⟩
  | error e => exact Except.noConfusion h

/-- An invariant carried through a successful monadic fold over Except. -/
theorem foldlM_except_inv {α β : Type} (f : β → α → Except Unit β) (P : β → Prop) :
    ∀ (l : List α) (b0 b : β),
      (∀ b1 a b2, a ∈ l → P b1 → f b1 a = Except.ok b2 → P b2) →
      P b0 → l.foldlM f b0 = Except.ok b → P b := by
  intro l
  induction l with
  | nil =>
    intro b0 b _ h0 hfold
    rw [List.foldlM_nil] at hfold
    have hb : (Except.ok b0 : Except Unit β) = Except.ok b := hfold
    injection hb with hb2
    rw [← hb2]
    exact h0
  | cons a l ih =>
    intro b0 b hstep h0 hfold
    rw [List.foldlM_cons] at hfold
    obtain ⟨b1, hb1, hrest⟩ := except_bind_ok _ _ _ hfold
    exact ih b1 b (fun x y z hy => hstep x y z (List.mem_cons_of_mem _ hy))
      (hstep b0 a b1 (List.mem_cons_self _ _) h0 hb1) hrest

theorem intRange_mem {a b x : Int} (h : x ∈ intRange a b) : a ≤ x ∧ x ≤ b := by
  simp only [intRange, List.mem_map, List.mem_range] at h
  obtain ⟨i, hi, hx⟩ := h
  rw [Int.ofNat_eq_natCast] at hx
  omega

/-- Every entry the collection pass keeps lies in the dragged range, and
its target is the source shifted by the offset and inside the dataset
bounds. -/
theorem collectCellData_mem (st : SpreadsheetState)
    (minRow maxRow minCol maxCol rowOffset colOffset : Int)
    (l : List MoveCellData)
    (h : collectCellData st minRow maxRow minCol maxCol rowOffset colOffset = Except.ok l) :
    ∀ cd ∈ l,
      minRow ≤ cd.sourcePos.row ∧ cd.sourcePos.row ≤ maxRow ∧
      minCol ≤ cd.sourcePos.col ∧ cd.sourcePos.col ≤ maxCol ∧
      cd.targetPos.row = cd.sourcePos.row + rowOffset ∧
      cd.targetPos.col = cd.sourcePos.col + colOffset ∧
      0 ≤ cd.targetPos.row ∧ cd.targetPos.row < (st.data.items.length : Int) ∧
      0 ≤ cd.targetPos.col ∧ cd.targetPos.col < (st.data.columns.length : Int) := by
  unfold collectCellData at h
  refine foldlM_except_inv _
    (fun acc => ∀ cd ∈ acc,
      minRow ≤ cd.sourcePos.row ∧ cd.sourcePos.row ≤ maxRow ∧
      minCol ≤ cd.sourcePos.col ∧ cd.sourcePos.col ≤ maxCol ∧
      cd.targetPos.row = cd.sourcePos.row + rowOffset ∧
      cd.targetPos.col = cd.sourcePos.col + colOffset ∧
      0 ≤ cd.targetPos.row ∧ cd.targetPos.row < (st.data.items.length : Int) ∧
      0 ≤ cd.targetPos.col ∧ cd.targetPos.col < (st.data.columns.length : Int))
    _ _ _ ?_ (fun cd hcd => absurd hcd (List.not_mem_nil cd)) h
  intro acc row acc2 hrow hP hfold
  have hrowB := intRange_mem hrow
  dsimp only at hfold
  refine foldlM_except_inv _
    (fun acc => ∀ cd ∈ acc,
      minRow ≤ cd.sourcePos.row ∧ cd.sourcePos.row ≤ maxRow ∧
      minCol ≤ cd.sourcePos.col ∧ cd.sourcePos.col ≤ maxCol ∧
      cd.targetPos.row = cd.sourcePos.row + rowOffset ∧
      cd.targetPos.col = cd.sourcePos.col + colOffset ∧
      0 ≤ cd.targetPos.row ∧ cd.targetPos.row < (st.data.items.length : Int) ∧
      0 ≤ cd.targetPos.col ∧ cd.targetPos.col < (st.data.columns.length : Int))
    _ _ _ ?_ hP hfold
  intro acc3 col acc4 hcol hP3 hbody
  have hcolB := intRange_mem hcol
  by_cases hb : 0 ≤ row + rowOffset ∧ row + rowOffset < (st.data.items.length : Int) ∧
      0 ≤ col + colOffset ∧ col + colOffset < (st.data.columns.length : Int)
  · rw [if_pos hb] at hbody
    obtain ⟨v, hv, hrest⟩ := except_bind_ok _ _ _ hbody
    by_cases hvne : v ≠ ""
    · rw [if_pos hvne] at hrest
      have hacc : (Except.ok (acc3 ++
          [{ sourcePos := ⟨row, col⟩, targetPos := ⟨row + rowOffset, col + colOffset⟩,
             value := v, style := getCellStyle st row col }]) : Except Unit _) =
          Except.ok acc4 := hrest
      injection hacc with hacc2
      rw [← hacc2]
      intro cd hcd
      rcases List.mem_append.mp hcd with hin | hin
      · exact hP3 cd hin
      · rw [List.mem_singleton.mp hin]
        exact ⟨hrowB.1, hrowB.2, hcolB.1, hcolB.2, rfl, rfl,
          hb.1, hb.2.1, hb.2.2.1, hb.2.2.2⟩
    · rw [if_neg hvne] at hrest
      have hacc : (Except.ok acc3 : Except Unit _) = Except.ok acc4 := hrest
      injection hacc with hacc2
      rw [← hacc2]
      exact hP3
  · rw [if_neg hb] at hbody
    have hacc : (Except.ok acc3 : Except Unit _) = Except.ok acc4 := hbody
    injection hacc with hacc2
    rw [← hacc2]
    exact hP3

theorem saveToHistory_cells (st : SpreadsheetState) : (saveToHistory st).cells = st.cells := rfl

/-- A set-value dispatch touches the override map only at its own key and
leaves the dataset alone. -/
theorem dispatch_setValue_frame (now : Nat) (pos : CellPosition) (v : CellValue)
    (s s2 : SpreadsheetState)
    (h : dispatch now (.setValue pos v) s = Except.ok s2) :
    s2.data = s.data ∧ ∀ k : String, k ≠ getCellKey pos.row pos.col →
      List.lookup k s2.cells = List.lookup k s.cells := by
  simp only [dispatch] at h
  injection h with h2
  rw [← h2]
  refine ⟨rfl, fun k hk => ?_⟩
  rw [saveToHistory_cells]
  cases hcol : listGetInt s.data.columns pos.col with
  | none =>
    dsimp only
    rw [lookup_setA, if_neg hk]
  | some column =>
    dsimp only
    by_cases hvv : (v != CellValue.str "") = true
    · rw [if_pos hvv, lookup_setA, if_neg hk]
    · rw [if_neg hvv, lookup_setA, if_neg hk]

/-- A set-style dispatch touches the override map only at its own key and
leaves the dataset alone. -/
theorem dispatch_setStyle_frame (now : Nat) (pos : CellPosition) (style : CellStyle)
    (s s2 : SpreadsheetState)
    (h : dispatch now (.setStyle pos style) s = Except.ok s2) :
    s2.data = s.data ∧ ∀ k : String, k ≠ getCellKey pos.row pos.col →
      List.lookup k s2.cells = List.lookup k s.cells := by
  simp only [dispatch] at h
  injection h with h2
  rw [← h2]
  refine ⟨rfl, fun k hk => ?_⟩
  dsimp only
  rw [lookup_setA, if_neg hk]

/-- A range selection changes neither the override map nor the dataset. -/
theorem dispatch_selectRange_frame (now : Nat) (rg : CellRange) (s s2 : SpreadsheetState)
    (h : dispatch now (.selectRange rg) s = Except.ok s2) :
    s2.cells = s.cells ∧ s2.data = s.data := by
  simp only [dispatch] at h
  injection h with h2
  rw [← h2]
  exact ⟨rfl, rfl⟩

/-- Cell keys are injective over non-negative coordinates. -/
theorem getCellKey_nonneg_inj {r1 c1 r2 c2 : Int}
    (h1 : 0 ≤ r1) (h2 : 0 ≤ c1) (h3 : 0 ≤ r2) (h4 : 0 ≤ c2)
    (hk : getCellKey r1 c1 = getCellKey r2 c2) : r1 = r2 ∧ c1 = c2 := by
  have e1 : r1 = ((r1.toNat : Nat) : Int) := by omega
  have e2 : c1 = ((c1.toNat : Nat) : Int) := by omega
  have e3 : r2 = ((r2.toNat : Nat) : Int) := by omega
  have e4 : c2 = ((c2.toNat : Nat) : Int) := by omega
  rw [e1, e2, e3, e4] at hk
  have := getCellKey_nat_inj hk
  omega

/-- The display value of a position depends only on the dataset and on the
override stored at that position. -/
theorem getCellDisplayValue_congr (s s2 : SpreadsheetState) (row col : Int)
    (hdata : s2.data = s.data)
    (hcell : List.lookup (getCellKey row col) s2.cells =
      List.lookup (getCellKey row col) s.cells) :
    getCellDisplayValue s2 row col = getCellDisplayValue s row col := by
  unfold getCellDisplayValue getCellRawValue
  rw [hdata, hcell]

/-- C7 (amended): in any successful range move, every cell of the dragged
range whose display value is non-empty and whose offset target falls
outside the dataset bounds is skipped entirely: it never enters the
collected cell data, so its value is written nowhere and its source is
never cleared; the override and the display value at its position survive
the whole move unchanged unless that position is itself the in-bounds
target of another moved cell. -/
theorem claim_C7_amended (st : SpreadsheetState) (draggedRange : CellRange)
    (sourceRow sourceCol dropRow dropCol r c : Int) (v : String)
    (cellData : List MoveCellData) (stFinal : SpreadsheetState)
    (hminr : 0 ≤ min draggedRange.start.row draggedRange.stop.row)
    (hminc : 0 ≤ min draggedRange.start.col draggedRange.stop.col)
    (hr1 : min draggedRange.start.row draggedRange.stop.row ≤ r)
    (hr2 : r ≤ max draggedRange.start.row draggedRange.stop.row)
    (hc1 : min draggedRange.start.col draggedRange.stop.col ≤ c)
    (hc2 : c ≤ max draggedRange.start.col draggedRange.stop.col)
    (hcollect : collectCellData st
      (min draggedRange.start.row draggedRange.stop.row)
      (max draggedRange.start.row draggedRange.stop.row)
      (min draggedRange.start.col draggedRange.stop.col)
      (max draggedRange.start.col draggedRange.stop.col)
      (dropRow - sourceRow) (dropCol - sourceCol) = Except.ok cellData)
    (hrun : handleMouseUpMove st draggedRange sourceRow sourceCol dropRow dropCol =
      Except.ok stFinal)
    (hdisp : getCellDisplayValue st r c = Except.ok v) (hv : v ≠ "")
    (hoob : ¬(0 ≤ r + (dropRow - sourceRow) ∧
        r + (dropRow - sourceRow) < (st.data.items.length : Int) ∧
        0 ≤ c + (dropCol - sourceCol) ∧
        c + (dropCol - sourceCol) < (st.data.columns.length : Int))) :
    (∀ cd ∈ cellData, cd.sourcePos ≠ (⟨r, c⟩ : CellPosition)) ∧
    ((∀ cd ∈ cellData, cd.targetPos ≠ (⟨r, c⟩ : CellPosition)) →
      List.lookup (getCellKey r c) stFinal.cells = List.lookup (getCellKey r c) st.cells ∧
      getCellDisplayValue stFinal r c = Except.ok v) := by
  have hQ := collectCellData_mem st _ _ _ _ _ _ cellData hcollect
  have parta : ∀ cd ∈ cellData, cd.sourcePos ≠ (⟨r, c⟩ : CellPosition) := by
    intro cd hcd heq
    have hq := hQ cd hcd
    rw [heq] at hq
    dsimp only at hq
    obtain ⟨q1, q2, q3, q4, q5, q6, q7, q8, q9, q10⟩ := hq
    exact hoob ⟨by omega, by omega, by omega, by omega⟩
  refine ⟨parta, fun htgt => ?_⟩
  have hkr : (0 : Int) ≤ r := le_trans hminr hr1
  have hkc : (0 : Int) ≤ c := le_trans hminc hc1
  have hsrckey : ∀ cd ∈ cellData,
      getCellKey r c ≠ getCellKey cd.sourcePos.row cd.sourcePos.col := by
    intro cd hcd hkey
    have hq := hQ cd hcd
    have hinj := getCellKey_nonneg_inj hkr hkc (by omega : (0 : Int) ≤ cd.sourcePos.row)
      (by omega : (0 : Int) ≤ cd.sourcePos.col) hkey
    refine parta cd hcd ?_
    rw [hinj.1, hinj.2]
  have htgtkey : ∀ cd ∈ cellData,
      getCellKey r c ≠ getCellKey cd.targetPos.row cd.targetPos.col := by
    intro cd hcd hkey
    have hq := hQ cd hcd
    have hinj := getCellKey_nonneg_inj hkr hkc (by omega : (0 : Int) ≤ cd.targetPos.row)
      (by omega : (0 : Int) ≤ cd.targetPos.col) hkey
    refine htgt cd hcd ?_
    rw [hinj.1, hinj.2]
  simp only [handleMouseUpMove] at hrun
  obtain ⟨cd2, hcd2, hrun2⟩ := except_bind_ok _ _ _ hrun
  rw [hcollect] at hcd2
  injection hcd2 with hcd2e
  rw [← hcd2e] at hrun2
  obtain ⟨st1, hst1, hrun3⟩ := except_bind_ok _ _ _ hrun2
  obtain ⟨st2, hst2, hsel⟩ := except_bind_ok _ _ _ hrun3
  have hP1 : List.lookup (getCellKey r c) st1.cells = List.lookup (getCellKey r c) st.cells ∧
      st1.data = st.data := by
    refine foldlM_except_inv _
      (fun s => List.lookup (getCellKey r c) s.cells = List.lookup (getCellKey r c) st.cells ∧
        s.data = st.data) cellData st st1 ?_ ⟨rfl, rfl⟩ hst1
    intro s1 cd s2 hcd hPs hstep
    have hfr := dispatch_setValue_frame 0 cd.sourcePos (.str "") s1 s2 hstep
    exact ⟨(hfr.2 _ (hsrckey cd hcd)).trans hPs.1, hfr.1.trans hPs.2⟩
  have hP2 : List.lookup (getCellKey r c) st2.cells = List.lookup (getCellKey r c) st1.cells ∧
      st2.data = st1.data := by
    refine foldlM_except_inv _
      (fun s => List.lookup (getCellKey r c) s.cells = List.lookup (getCellKey r c) st1.cells ∧
        s.data = st1.data) cellData st1 st2 ?_ ⟨rfl, rfl⟩ hst2
    intro s1 cd s2 hcd hPs hstep
    obtain ⟨smid, hsv, hss⟩ := except_bind_ok _ _ _ hstep
    have hfr1 := dispatch_setValue_frame 0 cd.targetPos (.str cd.value) s1 smid hsv
    have hfr2 := dispatch_setStyle_frame 0 cd.targetPos cd.style smid s2 hss
    exact ⟨((hfr2.2 _ (htgtkey cd hcd)).trans (hfr1.2 _ (htgtkey cd hcd))).trans hPs.1,
      (hfr2.1.trans hfr1.1).trans hPs.2⟩
  have hfr3 := dispatch_selectRange_frame 0 _ st2 stFinal hsel
  have hcells : List.lookup (getCellKey r c) stFinal.cells =
      List.lookup (getCellKey r c) st.cells := by
    rw [hfr3.1]
    exact hP2.1.trans hP1.1
  have hdata : stFinal.data = st.data := hfr3.2.trans (hP2.2.trans hP1.2)
  exact ⟨hcells, (getCellDisplayValue_congr st stFinal r c hdata hcells).trans hdisp⟩

/-- C7 witness: moving the full two-by-two dataset A B / C D by offset
(1, 1), the only collected cell is (0, 0) to (1, 1); the cell (0, 1) has
display value B and an out-of-bounds target (1, 2), is never a source and
never a target of the collected data, and both its override slot and its
display value B survive the move unchanged. -/
theorem claim_C7_witness :
    ∃ stF : SpreadsheetState,
      handleMouseUpMove moveState2 ⟨⟨0, 0⟩, ⟨1, 1⟩⟩ 0 0 1 1 = Except.ok stF ∧
      ((∀ cd ∈ [moveEntryA], cd.sourcePos ≠ (⟨0, 1⟩ : CellPosition)) ∧
       ((∀ cd ∈ [moveEntryA], cd.targetPos ≠ (⟨0, 1⟩ : CellPosition)) →
        List.lookup (getCellKey 0 1) stF.cells = List.lookup (getCellKey 0 1) moveState2.cells ∧
        getCellDisplayValue stF 0 1 = Except.ok "B")) := by
  obtain ⟨stF, hrun⟩ : ∃ stF, handleMouseUpMove moveState2 ⟨⟨0, 0⟩, ⟨1, 1⟩⟩ 0 0 1 1 =
      Except.ok stF := ⟨_, rfl⟩
  exact ⟨stF, hrun, claim_C7_amended moveState2 ⟨⟨0, 0⟩, ⟨1, 1⟩⟩ 0 0 1 1 0 1 "B"
    [moveEntryA] stF (by decide) (by decide) (by decide) (by decide) (by decide) (by decide)
    (by rfl) hrun (by rfl) (by decide) (by decide)⟩

/-- C4 (counterexample): after two value commits, a style change followed
by undo loses the style change: the styled cell reports bold before the
undo and the empty style after it (the undo does revert the latest value
commit, restoring the display value v1, but the style is not left
intact). -/
theorem claim_C4_counterexample :
    (do
      let s1 ← dispatch 0 (.setValue ⟨0, 0⟩ (.str "v1")) oneByOneState
      let s2 ← dispatch 0 (.setValue ⟨0, 0⟩ (.str "v2")) s1
      let s3 ← dispatch 0 (.setStyle ⟨0, 0⟩ { bold := some true }) s2
      let s4 ← dispatch 0 CellOperation.undo s3
      pure (getCellStyle s3 0 0, getCellStyle s4 0 0, ← getCellDisplayValue s4 0 0)) =
      Except.ok ({ bold := some true }, {}, "v1") ∧
    ({ bold := some true } : CellStyle) ≠ ({} : CellStyle) := ⟨rfl, by decide⟩

/-- C5 (counterexample): the delete-column override remap is sensitive to
the insertion order of the override map. With overrides inserted at
column 2 (value B) first and column 1 (value A) second, deleting column 0
leaves B at key 0-0 - where the claim expects A - and nothing at key 0-1,
where the claim expects B: the in-place rewrite clobbers the entry at
column 1 before it is processed. -/
theorem claim_C5_counterexample :
    clobberState.cells = [("0-2", { value := CellValue.str "B" }),
                         ("0-1", { value := CellValue.str "A" })] ∧
    (do
      let s ← dispatch 0 (.deleteColumn 0) clobberState
      pure (List.lookup "0-0" s.cells, List.lookup "0-1" s.cells)) =
      Except.ok (some { value := CellValue.str "B" }, none) := ⟨rfl, rfl⟩

/-! ## Claim C3: the history invariant -/

theorem saveToHistory_histInv (st : SpreadsheetState) (h1 : -1 ≤ st.historyIndex)
    (h2 : st.historyIndex ≤ (st.history.length : Int)) (h3 : st.history.length ≤ 50) :
    historyInv (saveToHistory st) := by
  unfold saveToHistory historyInv
  have hnn : ¬st.historyIndex + 1 < 0 := by omega
  simp only [jsSliceTo, if_neg hnn, lastFifty, List.length_append, List.length_take,
    List.length_drop, List.length_singleton]
  omega

theorem dispatch_preserves_histInv (now : Nat) (op : CellOperation)
    (st st' : SpreadsheetState) (hInv : historyInv st)
    (h : dispatch now op st = Except.ok st') : historyInv st' := by
  obtain ⟨h1, h2, h3⟩ := hInv
  cases op with
  | setValue position value =>
    simp only [dispatch, Except.ok.injEq] at h
    subst h
    exact saveToHistory_histInv _ h1 h2 h3
  | setStyle position style =>
    simp only [dispatch, Except.ok.injEq] at h
    subst h
    exact ⟨h1, h2, h3⟩
  | setFormula position formula =>
    simp only [dispatch, Except.ok.injEq] at h
    subst h
    exact saveToHistory_histInv _ h1 h2 h3
  | selectCell position =>
    simp only [dispatch, Except.ok.injEq] at h
    subst h
    exact ⟨h1, h2, h3⟩
  | selectRange range =>
    simp only [dispatch, Except.ok.injEq] at h
    subst h
    exact ⟨h1, h2, h3⟩
  | startEditing position =>
    simp only [dispatch, Except.ok.injEq] at h
    subst h
    exact ⟨h1, h2, h3⟩
  | stopEditing =>
    simp only [dispatch, Except.ok.injEq] at h
    subst h
    exact ⟨h1, h2, h3⟩
  | addColumn index name =>
    simp only [dispatch, Except.ok.injEq] at h
    subst h
    exact saveToHistory_histInv _ h1 h2 h3
  | addRow index =>
    simp only [dispatch, Except.ok.injEq] at h
    subst h
    exact saveToHistory_histInv _ h1 h2 h3
  | deleteColumn index =>
    simp only [dispatch] at h
    by_cases hc : index < (st.data.columns.length : Int)
    · rw [if_pos hc] at h
      cases hM : st.data.items.mapM (fun item =>
          match listGetInt st.data.columns index with
          | some c => Except.ok (eraseA item c.key)
          | none => Except.error ()) with
      | error e =>
        rw [hM] at h
        exact absurd h (by simp [Bind.bind, Except.bind])
      | ok newItems =>
        rw [hM] at h
        simp only [Bind.bind, Except.bind, Except.ok.injEq] at h
        subst h
        exact saveToHistory_histInv _ h1 h2 h3
    · rw [if_neg hc, Except.ok.injEq] at h
      subst h
      exact ⟨h1, h2, h3⟩
  | deleteRow index =>
    simp only [dispatch] at h
    by_cases hc : index < (st.data.items.length : Int)
    · rw [if_pos hc, Except.ok.injEq] at h
      subst h
      exact saveToHistory_histInv _ h1 h2 h3
    · rw [if_neg hc, Except.ok.injEq] at h
      subst h
      exact ⟨h1, h2, h3⟩
  | updateColumnName columnIndex newName =>
    simp only [dispatch] at h
    by_cases hc : 0 ≤ columnIndex ∧ columnIndex < (st.data.columns.length : Int)
    · rw [if_pos hc, Except.ok.injEq] at h
      subst h
      exact saveToHistory_histInv _ h1 h2 h3
    · rw [if_neg hc, Except.ok.injEq] at h
      subst h
      exact ⟨h1, h2, h3⟩
  | updateColumnType columnIndex columnType format =>
    simp only [dispatch] at h
    by_cases hc : 0 ≤ columnIndex ∧ columnIndex < (st.data.columns.length : Int)
    · rw [if_pos hc, Except.ok.injEq] at h
      subst h
      exact saveToHistory_histInv _ h1 h2 h3
    · rw [if_neg hc, Except.ok.injEq] at h
      subst h
      exact ⟨h1, h2, h3⟩
  | sortColumn columnIndex direction =>
    simp only [dispatch, Except.ok.injEq] at h
    subst h
    exact ⟨h1, h2, h3⟩
  | undo =>
    simp only [dispatch] at h
    by_cases hc : 0 < st.historyIndex
    · rw [if_pos hc] at h
      cases hG : listGetInt st.history (st.historyIndex - 1) with
      | none =>
        rw [hG] at h
        exact absurd h (by simp)
      | some snap =>
        rw [hG] at h
        simp only [Except.ok.injEq] at h
        subst h
        exact ⟨by simp; omega, by simp; omega, by simpa using h3⟩
    · rw [if_neg hc, Except.ok.injEq] at h
      subst h
      exact ⟨h1, h2, h3⟩
  | redo =>
    simp only [dispatch] at h
    by_cases hc : st.historyIndex < (st.history.length : Int) - 1
    · rw [if_pos hc] at h
      cases hG : listGetInt st.history (st.historyIndex + 1) with
      | none =>
        rw [hG] at h
        exact absurd h (by simp)
      | some snap =>
        rw [hG] at h
        simp only [Except.ok.injEq] at h
        subst h
        exact ⟨by simp; omega, by simp; omega, by simpa using h3⟩
    · rw [if_neg hc, Except.ok.injEq] at h
      subst h
      exact ⟨h1, h2, h3⟩

/-- C3 (amended): the invariant that every dispatch in fact preserves is
-1 at most historyIndex, historyIndex at most history.length (equality is
reachable right after an overflowing fifty-first commit, so the strict
bound of the claim fails), and history.length at most 50. Each committing
operation still discards the redo tail, appends a snapshot and retains the
most recent fifty entries, but it sets historyIndex to the pre-truncation
length minus one, which is one past the last retained entry exactly when
the oldest entry was dropped. -/
theorem claim_C3_history_invariant_amended (now : Nat) (op : CellOperation)
    (st st' : SpreadsheetState) (hInv : historyInv st)
    (h : dispatch now op st = Except.ok st') : historyInv st' :=
  dispatch_preserves_histInv now op st st' hInv h

/-- C3 witness: the invariant holds of the initial state and is carried
through a concrete dispatch. -/
theorem claim_C3_history_invariant_witness :
    historyInv emptyState ∧
    historyInv { emptyState with selectedCell := some ⟨0, 0⟩, selectedRange := none } :=
  ⟨by decide,
   claim_C3_history_invariant_amended 0 (.selectCell ⟨0, 0⟩) emptyState _ (by decide) rfl⟩

theorem commitStep_history (st : SpreadsheetState) (h1 : -1 ≤ st.historyIndex) :
    (commitStep st).history.length =
      min (min (st.historyIndex + 1).toNat st.history.length + 1) 50 ∧
    (commitStep st).historyIndex =
      ((min (st.historyIndex + 1).toNat st.history.length + 1 : Nat) : Int) - 1 := by
  have hnn : ¬st.historyIndex + 1 < 0 := by omega
  unfold commitStep
  simp only [dispatch, saveToHistory, jsSliceTo, if_neg hnn, lastFifty, List.length_append,
    List.length_take, List.length_drop, List.length_singleton]
  exact ⟨by omega, trivial⟩

theorem commitN_history (n : Nat) :
    (commitN (n + 1) emptyState).historyIndex = ((min n 50 : Nat) : Int) ∧
    (commitN (n + 1) emptyState).history.length = min (n + 1) 50 := by
  induction n with
  | zero => exact ⟨rfl, rfl⟩
  | succ n ih =>
    have h1 : -1 ≤ (commitN (n + 1) emptyState).historyIndex := by
      rw [ih.1]; omega
    obtain ⟨hl, hi⟩ := commitStep_history (commitN (n + 1) emptyState) h1
    have hstep : commitN (n + 1 + 1) emptyState = commitStep (commitN (n + 1) emptyState) := rfl
    rw [hstep, hi, hl, ih.1, ih.2]
    constructor <;> omega

/-- C3 (counterexample): after fifty-one committing operations from the
initial state, historyIndex equals 50 and history.length equals 50, so the
claimed strict bound historyIndex below history.length is violated: the
index points one past the last retained entry. -/
theorem claim_C3_counterexample :
    (commitN 51 emptyState).historyIndex = 50 ∧
    (commitN 51 emptyState).history.length = 50 ∧
    ¬((commitN 51 emptyState).historyIndex < ((commitN 51 emptyState).history.length : Int)) := by
  have h := commitN_history 50
  refine ⟨by rw [h.1]; omega, by rw [h.2]; omega, ?_⟩
  rw [h.1, h.2]
  omega

/-! ## Claim C4: style changes and undo -/

theorem dispatch_undo_ok (now : Nat) (st : SpreadsheetState) (snap : Snapshot)
    (hpos : 0 < st.historyIndex)
    (hsnap : listGetInt st.history (st.historyIndex - 1) = some snap) :
    dispatch now CellOperation.undo st = Except.ok
      { data := snap.data, cells := snap.cells, selectedCell := snap.selectedCell,
        selectedRange := snap.selectedRange, editingCell := snap.editingCell,
        history := st.history, historyIndex := st.historyIndex - 1 } := by
  simp only [dispatch, if_pos hpos, hsnap]

theorem listGetInt_history_some (hist : List Snapshot) (i : Int) (h0 : 0 ≤ i)
    (hlt : i.toNat < hist.length) : ∃ snap, listGetInt hist i = some snap := by
  unfold listGetInt
  rw [if_pos h0]
  exact ⟨hist.get ⟨i.toNat, hlt⟩, List.get?_eq_get hlt⟩

/-- C4 (amended): a style change never commits - it leaves the history
sequence and historyIndex untouched - but the style change does NOT
survive a following undo: whenever historyIndex is at least one (at least
two retained commits), dispatching undo after the style change replaces
the dataset and the whole override map wholesale with the snapshot
preceding the current one, so the cell styles revert to that snapshot and
the style edit is lost. -/
theorem claim_C4_style_not_committed_amended (st : SpreadsheetState) (p : CellPosition)
    (sty : CellStyle) (now : Nat) (hge : 1 ≤ st.historyIndex)
    (hle : st.historyIndex ≤ (st.history.length : Int)) :
    ∃ st1 st2 snap,
      dispatch now (.setStyle p sty) st = Except.ok st1 ∧
      st1.history = st.history ∧ st1.historyIndex = st.historyIndex ∧
      dispatch now CellOperation.undo st1 = Except.ok st2 ∧
      listGetInt st.history (st.historyIndex - 1) = some snap ∧
      st2.cells = snap.cells ∧ st2.data = snap.data ∧
      st2.history = st.history ∧ st2.historyIndex = st.historyIndex - 1 := by
  have hpos : 0 < st.historyIndex := by omega
  obtain ⟨snap, hsnap⟩ := listGetInt_history_some st.history (st.historyIndex - 1)
    (by omega) (by omega)
  exact ⟨_, _, snap, rfl, rfl, rfl, dispatch_undo_ok now _ snap hpos hsnap, hsnap,
    rfl, rfl, rfl, rfl⟩

/-- C4 witness: the amended claim applied to a concrete state with two
history snapshots and index one. -/
theorem claim_C4_style_witness :
    1 ≤ twoSnapState.historyIndex ∧
    twoSnapState.historyIndex ≤ (twoSnapState.history.length : Int) ∧
    (∃ st1 st2 snap,
      dispatch 0 (.setStyle ⟨0, 0⟩ { bold := some true }) twoSnapState = Except.ok st1 ∧
      st1.history = twoSnapState.history ∧ st1.historyIndex = twoSnapState.historyIndex ∧
      dispatch 0 CellOperation.undo st1 = Except.ok st2 ∧
      listGetInt twoSnapState.history (twoSnapState.historyIndex - 1) = some snap ∧
      st2.cells = snap.cells ∧ st2.data = snap.data ∧
      st2.history = twoSnapState.history ∧
      st2.historyIndex = twoSnapState.historyIndex - 1) :=
  ⟨by decide, by decide,
   claim_C4_style_not_committed_amended twoSnapState ⟨0, 0⟩ { bold := some true } 0
     (by decide) (by decide)⟩

/-! ## Claim C10: empty set-value shadows the base value -/

/-- C10: dispatching a set-value with the empty string at an in-bounds
position creates or keeps an override whose value is the empty string
(rather than removing the override); afterwards both the raw and the
display accessor return the empty string at that position, whatever the
base dataset holds there - clearing shadows the base value instead of
restoring it. -/
theorem claim_C10_empty_setvalue_override (st : SpreadsheetState) (r c now : Nat)
    (hr : r < st.data.items.length) (hc : c < st.data.columns.length) :
    ∃ st' cell,
      dispatch now (.setValue ⟨(r : Int), (c : Int)⟩ (.str "")) st = Except.ok st' ∧
      List.lookup (getCellKey (r : Int) (c : Int)) st'.cells = some cell ∧
      cell.value = .str "" ∧
      getCellRawValue st' (r : Int) (c : Int) = Except.ok (.str "") ∧
      getCellDisplayValue st' (r : Int) (c : Int) = Except.ok "" := by
  have hkey := lookup_setA st.cells (getCellKey (r : Int) (c : Int))
    (getCellKey (r : Int) (c : Int))
    (withValue (List.lookup (getCellKey (r : Int) (c : Int)) st.cells) (.str ""))
  rw [if_pos rfl] at hkey
  have hvalue : (withValue (List.lookup (getCellKey (r : Int) (c : Int)) st.cells)
      (.str "")).value = .str "" := by
    cases List.lookup (getCellKey (r : Int) (c : Int)) st.cells <;> rfl
  have hcells : ∀ st1 : SpreadsheetState,
      dispatch now (.setValue ⟨(r : Int), (c : Int)⟩ (.str "")) st = Except.ok st1 →
      st1.cells = setA st.cells (getCellKey (r : Int) (c : Int))
        (withValue (List.lookup (getCellKey (r : Int) (c : Int)) st.cells) (.str "")) ∧
      st1.data = st.data := by
    intro st1 h
    cases hcol : listGetInt st.data.columns ((c : Nat) : Int) with
    | none =>
      simp only [dispatch, hcol, Except.ok.injEq] at h
      subst h
      exact ⟨rfl, rfl⟩
    | some column =>
      simp only [dispatch, hcol] at h
      rw [if_neg (by decide)] at h
      simp only [Except.ok.injEq] at h
      subst h
      exact ⟨rfl, rfl⟩
  cases hcol : listGetInt st.data.columns ((c : Nat) : Int) with
  | none =>
    exfalso
    unfold listGetInt at hcol
    rw [if_pos (by omega)] at hcol
    rw [List.get?_eq_get (by simpa using hc)] at hcol
    exact Option.noConfusion hcol
  | some column =>
    have hdisp : ∀ st1 : SpreadsheetState,
        st1.cells = setA st.cells (getCellKey (r : Int) (c : Int))
          (withValue (List.lookup (getCellKey (r : Int) (c : Int)) st.cells) (.str "")) →
        st1.data = st.data →
        getCellRawValue st1 (r : Int) (c : Int) = Except.ok (.str "") ∧
        getCellDisplayValue st1 (r : Int) (c : Int) = Except.ok "" := by
      intro st1 e1 e2
      have hraw : getCellRawValue st1 (r : Int) (c : Int) = Except.ok (.str "") := by
        unfold getCellRawValue
        rw [e1, hkey]
        exact congrArg Except.ok hvalue
      refine ⟨hraw, ?_⟩
      unfold getCellDisplayValue
      rw [hraw]
      show (Except.ok (CellValue.str "") >>= _) = _
      rw [show ∀ (g : CellValue → Except Unit String),
        ((Except.ok (CellValue.str "") : Except Unit CellValue) >>= g) = g (.str "")
        from fun _ => rfl]
      rw [e2, hcol]
      rfl
    obtain ⟨e1, e2⟩ := hcells _ rfl
    obtain ⟨hraw, hd⟩ := hdisp _ e1 e2
    refine ⟨_, withValue (List.lookup (getCellKey (r : Int) (c : Int)) st.cells) (.str ""),
      rfl, ?_, hvalue, hraw, hd⟩
    rw [e1, hkey]

/-- C10 witness: on a one-by-one dataset whose base cell holds the
non-empty string hello, clearing the cell overrides it to the empty
string. -/
theorem claim_C10_empty_setvalue_witness :
    0 < oneValState.data.items.length ∧ 0 < oneValState.data.columns.length ∧
    (∃ st' cell,
      dispatch 0 (.setValue ⟨0, 0⟩ (.str "")) oneValState = Except.ok st' ∧
      List.lookup (getCellKey 0 0) st'.cells = some cell ∧
      cell.value = .str "" ∧
      getCellRawValue st' 0 0 = Except.ok (.str "") ∧
      getCellDisplayValue st' 0 0 = Except.ok "") :=
  ⟨by decide, by decide,
   claim_C10_empty_setvalue_override oneValState 0 0 0 (by decide) (by decide)⟩

/-! ## Claim C9: number validation and formatting -/

theorem mem_group3Rev (l : List Char) (k : Nat) (ch : Char) (h : ch ∈ group3Rev l k) :
    ch = ',' ∨ ch ∈ l := by
  induction l generalizing k with
  | nil => simp [group3Rev] at h
  | cons c rest ih =>
    rw [group3Rev] at h
    by_cases hk : k = 3
    · rw [if_pos hk] at h
      rcases List.mem_cons.mp h with h | h
      · exact Or.inl h
      rcases List.mem_cons.mp h with h | h
      · exact Or.inr (h ▸ List.mem_cons_self c rest)
      · rcases ih 1 h with h | h
        · exact Or.inl h
        · exact Or.inr (List.mem_cons_of_mem c h)
    · rw [if_neg hk] at h
      rcases List.mem_cons.mp h with h | h
      · exact Or.inr (h ▸ List.mem_cons_self c rest)
      · rcases ih (k + 1) h with h | h
        · exact Or.inl h
        · exact Or.inr (List.mem_cons_of_mem c h)

theorem mem_group3 (l : List Char) (ch : Char) (h : ch ∈ group3 l) : ch = ',' ∨ ch ∈ l := by
  unfold group3 at h
  rcases mem_group3Rev l.reverse 0 ch (List.mem_reverse.mp h) with h | h
  · exact Or.inl h
  · exact Or.inr (List.mem_reverse.mp h)

theorem remapTrack_lt (d : Nat) (L : Nat → Nat → Option Cell)
    (td : List ((Nat × Nat) × Cell)) (r c : Nat) (hcd : c < d) :
    remapTrack d L td r c = L r c := by
  unfold remapTrack
  by_cases h : (r, c) ∈ td.map (fun e => e.1)
  · rw [if_pos h]
  · rw [if_neg h, if_pos hcd]

theorem remapTrack_congr (d : Nat) (L : Nat → Nat → Option Cell)
    (td1 td2 : List ((Nat × Nat) × Cell)) (r c : Nat)
    (h1 : ((r, c) ∈ td1.map (fun e => e.1)) ↔ ((r, c) ∈ td2.map (fun e => e.1)))
    (h2 : ((r, c + 1) ∈ td1.map (fun e => e.1)) ↔ ((r, c + 1) ∈ td2.map (fun e => e.1))) :
    remapTrack d L td1 r c = remapTrack d L td2 r c := by
  unfold remapTrack
  by_cases hm : (r, c) ∈ td1.map (fun e => e.1)
  · rw [if_pos hm, if_pos (h1.mp hm)]
  · rw [if_neg hm, if_neg (fun hx => hm (h1.mpr hx))]
    by_cases hcd : c < d
    · rw [if_pos hcd, if_pos hcd]
    · rw [if_neg hcd, if_neg hcd]
      by_cases hm2 : (r, c + 1) ∈ td1.map (fun e => e.1)
      · rw [if_pos hm2, if_pos (h2.mp hm2)]
      · rw [if_neg hm2, if_neg (fun hx => hm2 (h2.mpr hx))]

theorem getCellKey_eq_iff (r c r2 c2 : Nat) :
    getCellKey (r : Int) (c : Int) = getCellKey (r2 : Int) (c2 : Int) ↔ (r = r2 ∧ c = c2) := by
  constructor
  · exact getCellKey_nat_inj
  · rintro ⟨rfl, rfl⟩
    rfl

theorem remapStepCol_canonical (d : Nat) (m : CellMap) (r0 c0 : Nat) :
    remapStepCol (d : Int) m (getCellKey (r0 : Int) (c0 : Int)) =
      if c0 = d then eraseA m (getCellKey (r0 : Int) (c0 : Int))
      else if d < c0 then
        match List.lookup (getCellKey (r0 : Int) (c0 : Int)) m with
        | some v => eraseA (setA m (getCellKey (r0 : Int) ((c0 - 1 : Nat) : Int)) v)
            (getCellKey (r0 : Int) (c0 : Int))
        | none => eraseA m (getCellKey (r0 : Int) (c0 : Int))
      else m := by
  unfold remapStepCol
  rw [parseCellKey_getCellKey]
  dsimp only
  by_cases h1 : c0 = d
  · rw [if_pos (by exact_mod_cast h1 : (c0 : Int) = (d : Int)), if_pos h1]
  · rw [if_neg (by exact_mod_cast h1 : ¬(c0 : Int) = (d : Int)), if_neg h1]
    by_cases h2 : d < c0
    · rw [if_pos (by exact_mod_cast h2 : (d : Int) < (c0 : Int)), if_pos h2]
      have hfix : ((c0 : Int) - 1) = ((c0 - 1 : Nat) : Int) := by omega
      rw [hfix]
      rfl
    · rw [if_neg (by exact_mod_cast h2 : ¬(d : Int) < (c0 : Int)), if_neg h2]

theorem remapFold_lookup (d : Nat) (L : Nat → Nat → Option Cell) :
    ∀ (todo done : List ((Nat × Nat) × Cell)) (m : CellMap),
      (done ++ todo).Pairwise (fun a b => a.1.1 = b.1.1 → a.1.2 < b.1.2) →
      (∀ r c : Nat, (r, c) ∉ (done ++ todo).map (fun e => e.1) → L r c = none) →
      (∀ r c : Nat, List.lookup (getCellKey (r : Int) (c : Int)) m = remapTrack d L todo r c) →
      ∀ r c : Nat,
        List.lookup (getCellKey (r : Int) (c : Int))
          ((todo.map (fun e => getCellKey (e.1.1 : Int) (e.1.2 : Int))).foldl
            (remapStepCol (d : Int)) m) =
        if c < d then L r c else L r (c + 1) := by
  intro todo
  induction todo with
  | nil =>
    intro done m hpw hL hInv r c
    simp only [List.map_nil, List.foldl_nil]
    rw [hInv r c]
    simp [remapTrack]
  | cons e rest ih =>
    obtain ⟨⟨r0, c0⟩, v0⟩ := e
    intro done m hpw hL hInv r c
    have hpwParts := List.pairwise_append.mp hpw
    have hHead : ∀ b ∈ rest, r0 = b.1.1 → c0 < b.1.2 :=
      (List.pairwise_cons.mp hpwParts.2.1).1
    have hDone : ∀ a ∈ done, a.1.1 = r0 → a.1.2 < c0 := by
      intro a ha
      exact hpwParts.2.2 a ha ((r0, c0), v0) (List.mem_cons_self _ _)
    have hnotRest : ∀ c2 : Nat, c2 ≤ c0 → (r0, c2) ∉ rest.map (fun e => e.1) := by
      intro c2 hc2 hm
      obtain ⟨b, hb, hbeq⟩ := List.mem_map.mp hm
      have h1 : r0 = b.1.1 := by rw [hbeq]
      have h2 : b.1.2 = c2 := by rw [hbeq]
      have := hHead b hb h1
      omega
    have hLnone : (r0, c0 + 1) ∉ rest.map (fun e => e.1) → L r0 (c0 + 1) = none := by
      intro hnm
      refine hL r0 (c0 + 1) (fun hmem => ?_)
      simp only [List.map_append, List.map_cons, List.mem_append, List.mem_cons] at hmem
      rcases hmem with hmem | hmem | hmem
      · obtain ⟨a, ha, haeq⟩ := List.mem_map.mp hmem
        have h1 : a.1.1 = r0 := by rw [haeq]
        have h2 : a.1.2 = c0 + 1 := by rw [haeq]
        have := hDone a ha h1
        omega
      · injection hmem with hm1 hm2
        omega
      · exact hnm hmem
    simp only [List.map_cons, List.foldl_cons]
    have hassoc : done ++ ((r0, c0), v0) :: rest = (done ++ [((r0, c0), v0)]) ++ rest := by
      simp
    apply ih (done ++ [((r0, c0), v0)]) _ (by rw [← hassoc]; exact hpw)
      (by rw [← hassoc]; exact hL) ?_ r c
    -- the re-established tracking invariant after one step
    intro r2 c2
    rw [remapStepCol_canonical]
    rcases Nat.lt_trichotomy c0 d with hcd | hcd | hcd
    · -- c0 < d : the step leaves the map unchanged
      rw [if_neg (by omega), if_neg (by omega)]
      rw [hInv r2 c2]
      by_cases hc2d : c2 < d
      · rw [remapTrack_lt _ _ _ _ _ hc2d, remapTrack_lt _ _ _ _ _ hc2d]
      · apply remapTrack_congr
        · simp only [List.map_cons, List.mem_cons]
          constructor
          · rintro (h | h)
            · exfalso
              injection h with hx1 hx2
              omega
            · exact h
          · exact fun h => Or.inr h
        · simp only [List.map_cons, List.mem_cons]
          constructor
          · rintro (h | h)
            · exfalso
              injection h with hx1 hx2
              omega
            · exact h
          · exact fun h => Or.inr h
    · -- c0 = d : the entry at the deleted column is erased
      rw [if_pos hcd]
      rw [lookup_eraseA]
      by_cases hpair : r2 = r0 ∧ c2 = c0
      · obtain ⟨h1, h2⟩ := hpair
        rw [if_pos ((getCellKey_eq_iff r2 c2 r0 c0).mpr ⟨h1, h2⟩), h1, h2]
        unfold remapTrack
        rw [if_neg (hnotRest c0 le_rfl), if_neg (by omega)]
        by_cases hm2 : (r0, c0 + 1) ∈ rest.map (fun e => e.1)
        · rw [if_pos hm2]
        · rw [if_neg hm2, hLnone hm2]
      · rw [if_neg (fun hk => hpair (getCellKey_nat_inj hk))]
        rw [hInv r2 c2]
        by_cases hc2d : c2 < d
        · rw [remapTrack_lt _ _ _ _ _ hc2d, remapTrack_lt _ _ _ _ _ hc2d]
        · apply remapTrack_congr
          · simp only [List.map_cons, List.mem_cons]
            constructor
            · rintro (h | h)
              · exfalso
                injection h with hx1 hx2
                exact hpair ⟨hx1, hx2⟩
              · exact h
            · exact fun h => Or.inr h
          · simp only [List.map_cons, List.mem_cons]
            constructor
            · rintro (h | h)
              · exfalso
                injection h with hx1 hx2
                omega
              · exact h
            · exact fun h => Or.inr h
    · -- d < c0 : the entry moves one column left
      rw [if_neg (by omega), if_pos hcd]
      have hmem0 : (r0, c0) ∈ (((r0, c0), v0) :: rest).map (fun e => e.1) := by simp
      have hsc : List.lookup (getCellKey (r0 : Int) (c0 : Int)) m = L r0 c0 := by
        rw [hInv r0 c0]
        unfold remapTrack
        rw [if_pos hmem0]
      rw [hsc]
      cases hL0 : L r0 c0 with
      | some v =>
        dsimp only
        rw [lookup_eraseA]
        by_cases hpair : r2 = r0 ∧ c2 = c0
        · obtain ⟨h1, h2⟩ := hpair
          rw [if_pos ((getCellKey_eq_iff r2 c2 r0 c0).mpr ⟨h1, h2⟩), h1, h2]
          unfold remapTrack
          rw [if_neg (hnotRest c0 le_rfl), if_neg (by omega)]
          by_cases hm2 : (r0, c0 + 1) ∈ rest.map (fun e => e.1)
          · rw [if_pos hm2]
          · rw [if_neg hm2, hLnone hm2]
        · rw [if_neg (fun hk => hpair (getCellKey_nat_inj hk))]
          rw [lookup_setA]
          by_cases hpair2 : r2 = r0 ∧ c2 = c0 - 1
          · obtain ⟨h1, h2⟩ := hpair2
            rw [if_pos ((getCellKey_eq_iff r2 c2 r0 (c0 - 1)).mpr ⟨h1, h2⟩), h1, h2]
            unfold remapTrack
            rw [if_neg (hnotRest (c0 - 1) (by omega)), if_neg (by omega)]
            have hplus : c0 - 1 + 1 = c0 := by omega
            rw [hplus, if_neg (hnotRest c0 le_rfl), hL0]
          · rw [if_neg (fun hk => hpair2 (getCellKey_nat_inj hk))]
            rw [hInv r2 c2]
            by_cases hc2d : c2 < d
            · rw [remapTrack_lt _ _ _ _ _ hc2d, remapTrack_lt _ _ _ _ _ hc2d]
            · apply remapTrack_congr
              · simp only [List.map_cons, List.mem_cons]
                constructor
                · rintro (h | h)
                  · exfalso
                    injection h with hx1 hx2
                    exact hpair ⟨hx1, hx2⟩
                  · exact h
                · exact fun h => Or.inr h
              · simp only [List.map_cons, List.mem_cons]
                constructor
                · rintro (h | h)
                  · exfalso
                    injection h with hx1 hx2
                    exact hpair2 ⟨hx1, by omega⟩
                  · exact h
                · exact fun h => Or.inr h
      | none =>
        dsimp only
        rw [lookup_eraseA]
        by_cases hpair : r2 = r0 ∧ c2 = c0
        · obtain ⟨h1, h2⟩ := hpair
          rw [if_pos ((getCellKey_eq_iff r2 c2 r0 c0).mpr ⟨h1, h2⟩), h1, h2]
          unfold remapTrack
          rw [if_neg (hnotRest c0 le_rfl), if_neg (by omega)]
          by_cases hm2 : (r0, c0 + 1) ∈ rest.map (fun e => e.1)
          · rw [if_pos hm2]
          · rw [if_neg hm2, hLnone hm2]
        · rw [if_neg (fun hk => hpair (getCellKey_nat_inj hk))]
          rw [hInv r2 c2]
          by_cases hpair2 : r2 = r0 ∧ c2 = c0 - 1
          · obtain ⟨h1, h2⟩ := hpair2
            rw [h1, h2]
            unfold remapTrack
            simp only [List.map_cons, List.mem_cons]
            have hne1 : ¬((r0, c0 - 1) = (r0, c0) ∨ (r0, c0 - 1) ∈ rest.map (fun e => e.1)) := by
              rintro (h | h)
              · injection h with hx1 hx2
                omega
              · exact hnotRest (c0 - 1) (by omega) h
            have hnd : ¬(c0 - 1 < d) := by omega
            have hplus : c0 - 1 + 1 = c0 := by omega
            rw [hplus]
            conv_lhs =>
              rw [if_neg hne1, if_neg hnd,
                if_pos (Or.inl (rfl : (r0, c0) = (r0, c0)))]
            conv_rhs =>
              rw [if_neg (hnotRest (c0 - 1) (Nat.sub_le c0 1)), if_neg hnd,
                if_neg (hnotRest c0 le_rfl)]
            rw [hL0]
          · apply remapTrack_congr
            · simp only [List.map_cons, List.mem_cons]
              constructor
              · rintro (h | h)
                · exfalso
                  injection h with hx1 hx2
                  exact hpair ⟨hx1, hx2⟩
                · exact h
              · exact fun h => Or.inr h
            · simp only [List.map_cons, List.mem_cons]
              constructor
              · rintro (h | h)
                · exfalso
                  injection h with hx1 hx2
                  exact hpair2 ⟨hx1, by omega⟩
                · exact h
              · exact fun h => Or.inr h

theorem lookup_entriesToCells_mem_track (entries : List ((Nat × Nat) × Cell))
    (d : Nat) (r c : Nat) :
    List.lookup (getCellKey (r : Int) (c : Int)) (entriesToCells entries) =
      remapTrack d (fun r2 c2 =>
        List.lookup (getCellKey (r2 : Int) (c2 : Int)) (entriesToCells entries)) entries r c := by
  by_cases hm : (r, c) ∈ entries.map (fun e => e.1)
  · unfold remapTrack
    rw [if_pos hm]
  · have h0 := lookup_entriesToCells_not_mem entries r c hm
    unfold remapTrack
    rw [if_neg hm, h0]
    by_cases hcd : c < d
    · rw [if_pos hcd]
      exact h0.symm
    · rw [if_neg hcd]
      by_cases hm2 : (r, c + 1) ∈ entries.map (fun e => e.1)
      · rw [if_pos hm2]
      · rw [if_neg hm2]
        exact (lookup_entriesToCells_not_mem entries r (c + 1) hm2).symm

theorem entriesToCells_keys (entries : List ((Nat × Nat) × Cell)) :
    (entriesToCells entries).map Prod.fst =
      entries.map (fun e => getCellKey (e.1.1 : Int) (e.1.2 : Int)) := by
  unfold entriesToCells
  rw [List.map_map]
  rfl

/-- C5 (amended): provided each row of the override map lists its keys in
ascending column order, deleting an in-bounds column d relocates every
override at a column past d one column left, removes the overrides of
column d, and keeps the overrides of earlier columns, with no clobbering:
the new map looks up, at (r, c), the old override of (r, c) when c < d and
the old override of (r, c+1) otherwise. -/
theorem claim_C5_delete_column_remap_amended
    (now : Nat) (st : SpreadsheetState) (entries : List ((Nat × Nat) × Cell)) (d : Nat)
    (hcells : st.cells = entriesToCells entries)
    (hasc : RowAscending entries)
    (hd : d < st.data.columns.length) :
    ∃ st2, dispatch now (.deleteColumn (d : Int)) st = Except.ok st2 ∧
      ∀ r c : Nat,
        List.lookup (getCellKey (r : Int) (c : Int)) st2.cells =
          if c < d then List.lookup (getCellKey (r : Int) (c : Int)) st.cells
          else List.lookup (getCellKey (r : Int) ((c + 1 : Nat) : Int)) st.cells := by
  have hlt : ((d : Nat) : Int) < (st.data.columns.length : Int) := by exact_mod_cast hd
  have hcol : listGetInt st.data.columns ((d : Nat) : Int) =
      some (st.data.columns.get ⟨d, hd⟩) := by
    unfold listGetInt
    rw [if_pos (by exact_mod_cast Nat.zero_le d)]
    rw [Int.toNat_natCast]
    exact List.get?_eq_get hd
  simp only [dispatch]
  rw [if_pos hlt, hcol]
  rw [mapM_except_ok (fun item => eraseA item (st.data.columns.get ⟨d, hd⟩).key)
    st.data.items]
  rw [show ∀ (x : List Item) (g : List Item → Except Unit SpreadsheetState),
    (Except.ok x >>= g) = g x from fun _ _ => rfl]
  refine ⟨_, rfl, ?_⟩
  intro r c
  show List.lookup (getCellKey (r : Int) (c : Int))
    ((st.cells.map Prod.fst).foldl (remapStepCol ((d : Nat) : Int)) st.cells) = _
  rw [hcells, entriesToCells_keys]
  exact remapFold_lookup d
    (fun r2 c2 => List.lookup (getCellKey (r2 : Int) (c2 : Int)) (entriesToCells entries))
    entries [] (entriesToCells entries)
    (by rw [List.nil_append]; exact hasc)
    (fun r2 c2 hnm => lookup_entriesToCells_not_mem entries r2 c2
      (by simpa using hnm))
    (fun r2 c2 => lookup_entriesToCells_mem_track entries d r2 c2) r c

/-- C5 witness: on the ascending two-override row with three columns,
deleting column 0 relocates both overrides one column left. -/
theorem claim_C5_delete_column_remap_witness :
    ascState.cells = entriesToCells ascEntries ∧ RowAscending ascEntries ∧
      0 < ascState.data.columns.length ∧
      (∃ st2, dispatch 0 (.deleteColumn ((0 : Nat) : Int)) ascState = Except.ok st2 ∧
        ∀ r c : Nat,
          List.lookup (getCellKey (r : Int) (c : Int)) st2.cells =
            if c < 0 then List.lookup (getCellKey (r : Int) (c : Int)) ascState.cells
            else List.lookup (getCellKey (r : Int) ((c + 1 : Nat) : Int)) ascState.cells) :=
  ⟨rfl, by unfold RowAscending; decide, by decide,
   claim_C5_delete_column_remap_amended 0 ascState ascEntries 0 rfl
     (by unfold RowAscending; decide) (by decide)⟩

end SpreadsheetVerif
